import Mathlib

/-!
Verification of the glimpse `image-pre-processor` augmentation pipeline
(`src/image-pre-processor.cc`).

The embedding models:
 * images as row-major grids (`List (List _)`), matching the flat
   `stride = width` buffers of the source;
 * depth samples as `FVal`, a rational value extended with IEEE-style
   NaN and signed infinities (floating-point rounding itself is modelled
   by exact rational arithmetic);
 * the implementation-defined parts of `<random>` (`normal_distribution`,
   `uniform_int_distribution`, and the external `perlin2d`) as an abstract
   `Sampler` parameter; the engine state of `std::default_random_engine`
   is modelled by the integer it was last seeded with, transformed by the
   sampler on each draw;
 * the worker pool as a nondeterministic scheduler: a run is driven by a
   list of unit indices, the index occurring at a position meaning that
   the worker owning that work unit processes that unit's next frame.
   This captures the code's discipline that one work unit is consumed
   sequentially by a single worker while units interleave arbitrarily.
-/

namespace Glimpse

/-- `BACKGROUND_ID` from the source. -/
def BACKGROUND_ID : ℕ := 0

/-- A depth sample: IEEE float modelled as a rational extended with
NaN and the two infinities. -/
inductive FVal where
  | nan : FVal
  | inf : Bool → FVal
  | fin : ℚ → FVal
deriving DecidableEq, Repr

namespace FVal

/-- `std::isnan`. -/
def isNaNB : FVal → Bool
  | .nan => true
  | _ => false

/-- `std::isinf`. -/
def isInfB : FVal → Bool
  | .inf _ => true
  | _ => false

/-- A finite (neither NaN nor infinite) value. -/
def isFiniteB : FVal → Bool
  | .fin _ => true
  | _ => false

/-- IEEE `>` against a finite right-hand side: NaN compares false,
`+inf` compares true, `-inf` compares false. -/
def gtQ : FVal → ℚ → Bool
  | .nan, _ => false
  | .inf b, _ => b
  | .fin p, q => decide (q < p)

/-- IEEE `==` against a finite right-hand side: NaN and infinities are
never equal to a finite value. -/
def eqQ : FVal → ℚ → Bool
  | .fin p, q => decide (p = q)
  | _, _ => false

/-- IEEE addition (no overflow: rationals are exact). -/
def add : FVal → FVal → FVal
  | .nan, _ => .nan
  | _, .nan => .nan
  | .inf b, .inf c => if b = c then .inf b else .nan
  | .inf b, .fin _ => .inf b
  | .fin _, .inf c => .inf c
  | .fin p, .fin q => .fin (p + q)

end FVal

/-- Images are row-major grids of samples, one list per row. -/
abbrev Grid (α : Type) := List (List α)

/-- Read the sample at row `y`, column `x` (default `d` out of range). -/
def gget (g : Grid α) (y x : ℕ) (d : α) : α :=
  (g.getD y []).getD x d

/-- Write the sample at row `y`, column `x` (no-op out of range),
modelling `buf[width * y + x] = v`. -/
def gset (g : Grid α) (y x : ℕ) (v : α) : Grid α :=
  g.set y ((g.getD y []).set x v)

/-- `struct noise_op`: the tagged union of configured noise operations. -/
inductive NoiseOp where
  | foregroundEdgeSwizzle : NoiseOp
  | normal (fwtmRangeMapM : ℚ) : NoiseOp
  | perlin (freq : ℚ) (amplitudeM : ℚ) (octaves : ℕ) : NoiseOp
deriving DecidableEq, Repr

/-- The immutable global configuration shared by all workers:
`background_depth_m`, `bg_far_clamp_mode_opt`, `min_body_size_px`,
`min_body_change_percent`, `no_flip_opt`, `seed_opt`, `max_frame_count`,
`left_to_right_map` and the configured `noise_ops`. -/
structure Config where
  bg : ℚ
  bgFarClampMode : Bool
  minBodySizePx : ℕ
  minBodyChangePercent : ℚ
  noFlip : Bool
  seed : ℤ
  maxFrameCount : ℕ
  swap : ℕ → ℕ
  noiseOps : List NoiseOp

/-- The implementation-defined sampling primitives used by the noise
engine.  `uniform8` models one draw of `uniform_int_distribution(0, 7)`
from the engine (consuming engine state), `gauss` one draw of
`normal_distribution(0, sigma)` (in millimetres), and `perlin` the pure
external `perlin2d(x, y, freq, octaves, seed)` function. -/
structure Sampler where
  uniform8 : ℤ → ℕ × ℤ
  gauss : ℚ → ℤ → ℚ × ℤ
  perlin : ℕ → ℕ → ℚ → ℕ → ℤ → ℚ

/-- Left-to-right traversal with a threaded accumulator (the random
engine state threads through noise loops this way). -/
def mapAccumL (f : σ → α → σ × β) : σ → List α → σ × List β
  | s, [] => (s, [])
  | s, a :: as =>
    let sb := f s a
    let sbs := mapAccumL f sb.1 as
    (sbs.1, sb.2 :: sbs.2)

/-- `flip_frame_depth`: every row's columns are reflected left-right,
with no value remap.  The source loop writes
`out_row[x] = depth_row[width-1-x]` for every column `x`. -/
def flip_frame_depth (depth : Grid FVal) : Grid FVal :=
  depth.map List.reverse

/-- `flip_frame_labels`: every row's columns are reflected left-right
and every label id is remapped through `left_to_right_map`.  The source
loop writes `out_row[x] = left_to_right_map[label_row[width-1-x]]` for
every column `x`. -/
def flip_frame_labels (swap : ℕ → ℕ) (labels : Grid ℕ) : Grid ℕ :=
  labels.map fun row => row.reverse.map swap

/-- First loop of `frame_diff`: the count of non-background pixels of
frame `a` (the freshly loaded frame). -/
def n_body_px (a : Grid ℕ) : ℕ :=
  (a.map fun row => row.countP fun l => !(l == BACKGROUND_ID)).sum

/-- Second loop of `frame_diff`: the count of positions where the two
frames' labels differ. -/
def n_different_px (a b : Grid ℕ) : ℕ :=
  ((List.range a.length).map fun y =>
    (List.range (a.getD y []).length).countP fun x =>
      !(gget a y x 0 == gget b y x 0)).sum

/-- The final comparison of `frame_diff`:
`percent = n_different_px * 100 / n_body_px`, returning `false`
("too similar") when `percent < min_body_change_percent`. -/
def frame_diff_differ (cfg : Config) (nDifferent nBody : ℕ) : Bool :=
  if (nDifferent : ℚ) * 100 / (nBody : ℚ) < cfg.minBodyChangePercent then
    false
  else
    true

/-- The worker's retain/drop decision for one frame, with the drop
reasons logged by `worker_thread_cb`. -/
inductive Decision where
  | retain : Decision
  | dropEmpty : Decision
  | dropTooSmall : Decision
  | dropTooSimilar : Decision
deriving DecidableEq, Repr

/-- The frame-filter decision made by `worker_thread_cb`: the first
frame of a unit (no previous retained frame) is retained
unconditionally; otherwise the counts of `frame_diff` against the
previous retained frame decide, in order: no body pixels, too small,
too similar, retain. -/
def filterDecision (cfg : Config) (prev : Option (Grid ℕ))
    (labels : Grid ℕ) : Decision :=
  match prev with
  | none => .retain
  | some p =>
    let nDifferent := n_different_px labels p
    let nBody := n_body_px labels
    let differ := frame_diff_differ cfg nDifferent nBody
    if nBody = 0 then .dropEmpty
    else if nBody < cfg.minBodySizePx then .dropTooSmall
    else if !differ then .dropTooSimilar
    else .retain

/-- The eight neighbour positions inspected by
`apply_foreground_edge_swizzle`, in the order of its
`neighbour_position` table. -/
def neighbourPositions (y x : ℕ) : List (ℕ × ℕ) :=
  [(y - 1, x - 1), (y - 1, x), (y - 1, x + 1),
   (y, x - 1), (y, x + 1),
   (y + 1, x - 1), (y + 1, x), (y + 1, x + 1)]

/-- One interior pixel of `apply_foreground_edge_swizzle`: a
non-background pixel with a background neighbour (judged on the
pre-pass snapshot `inL`/`inD`) has its output label and depth
overwritten with the snapshot values of a uniformly drawn neighbour. -/
def swizzlePixel (S : Sampler) (inL : Grid ℕ) (inD : Grid FVal)
    (st : Grid ℕ × Grid FVal × ℤ) (yx : ℕ × ℕ) : Grid ℕ × Grid FVal × ℤ :=
  let y := yx.1
  let x := yx.2
  if gget inL y x 0 ≠ BACKGROUND_ID then
    let nbs := (neighbourPositions y x).map fun p => gget inL p.1 p.2 0
    if nbs.contains BACKGROUND_ID then
      let draw := S.uniform8 st.2.2
      let pos := (neighbourPositions y x).getD draw.1 (y, x)
      (gset st.1 y x (nbs.getD draw.1 0),
       gset st.2.1 y x (gget inD pos.1 pos.2 (.fin 0)),
       draw.2)
    else st
  else st

/-- The interior pixels `1 ≤ y < height-1`, `1 ≤ x < width-1`
traversed in row-major order (first/last row and column untouched). -/
def interiorPositions (w h : ℕ) : List (ℕ × ℕ) :=
  ((List.range (h - 2)).map (· + 1)).flatMap fun y =>
    ((List.range (w - 2)).map (· + 1)).map fun x => (y, x)

/-- `apply_foreground_edge_swizzle`: snapshots the label/depth buffers,
then swizzles every interior edge pixel, threading the random engine. -/
def apply_foreground_edge_swizzle (S : Sampler) (labels : Grid ℕ)
    (depth : Grid FVal) (rng : ℤ) : Grid ℕ × Grid FVal × ℤ :=
  let h := depth.length
  let w := (depth.getD 0 []).length
  (interiorPositions w h).foldl (swizzlePixel S labels depth)
    (labels, depth, rng)

/-- The standard deviation of `apply_gaussian_noise`:
`fwtm_range_map_m * 1000 / 4.29193` (millimetres). -/
def gaussSigma (fwtmRangeMapM : ℚ) : ℚ :=
  fwtmRangeMapM * 1000 / (429193 / 100000)

/-- `apply_gaussian_noise`: adds an independent zero-mean draw (in
millimetres, converted back to metres) to every depth pixel regardless
of label, threading the random engine row-major. -/
def apply_gaussian_noise (S : Sampler) (sigma : ℚ) (rng : ℤ)
    (depth : Grid FVal) : ℤ × Grid FVal :=
  mapAccumL
    (fun s row =>
      mapAccumL
        (fun s' d =>
          let draw := S.gauss sigma s'
          (draw.2, d.add (.fin (draw.1 / 1000))))
        s row)
    rng depth

/-- `apply_perlin_noise`: adds
`perlin2d(x, y, freq, octaves, seed_opt + frame_no) * amplitude_m` to
every depth pixel; the engine state is not consumed. -/
def apply_perlin_noise (S : Sampler) (cfg : Config) (freq amplitudeM : ℚ)
    (octaves frameNo : ℕ) (depth : Grid FVal) : Grid FVal :=
  depth.mapIdx fun y row =>
    row.mapIdx fun x d =>
      d.add (.fin (S.perlin x y freq octaves (cfg.seed + frameNo) * amplitudeM))

/-- One case of the `switch` in `frame_add_noise`. -/
def applyNoiseOp (S : Sampler) (cfg : Config) (frameNo : ℕ)
    (st : Grid ℕ × Grid FVal × ℤ) (op : NoiseOp) : Grid ℕ × Grid FVal × ℤ :=
  match op with
  | .foregroundEdgeSwizzle =>
    apply_foreground_edge_swizzle S st.1 st.2.1 st.2.2
  | .normal fwtm =>
    let r := apply_gaussian_noise S (gaussSigma fwtm) st.2.2 st.2.1
    (st.1, r.2, r.1)
  | .perlin freq amp oct =>
    (st.1, apply_perlin_noise S cfg freq amp oct frameNo st.2.1, st.2.2)

/-- `frame_add_noise`: copies the retained frame's buffers and applies
the configured noise ops in declared order, threading the engine
state. -/
def frame_add_noise (S : Sampler) (cfg : Config) (rng : ℤ)
    (labels : Grid ℕ) (depth : Grid FVal) (frameNo : ℕ) :
    Grid ℕ × Grid FVal × ℤ :=
  cfg.noiseOps.foldl (applyNoiseOp S cfg frameNo) (labels, depth, rng)

/-- `clamp_depth`: every background-labelled pixel's depth is clamped
to `background_depth_m` — only when it exceeds it in far-clamp mode,
unconditionally otherwise.  (Label and depth buffers share their
dimensions throughout the pipeline.) -/
def clamp_depth (cfg : Config) (labels : Grid ℕ) (depth : Grid FVal) :
    Grid FVal :=
  depth.mapIdx fun y row =>
    row.mapIdx fun x d =>
      if gget labels y x 0 = BACKGROUND_ID then
        if cfg.bgFarClampMode then
          if d.gtQ cfg.bg then .fin cfg.bg else d
        else
          .fin cfg.bg
      else d

/-- The per-pixel test of `sanity_check_frame`: `false` means
`exit(1)`. -/
def px_ok (cfg : Config) (label : ℕ) (d : FVal) : Bool :=
  if d.isInfB || d.isNaNB then false
  else if d.gtQ cfg.bg then false
  else if !cfg.bgFarClampMode && label == BACKGROUND_ID && !(d.eqQ cfg.bg) then
    false
  else if !(label == BACKGROUND_ID) && d.eqQ cfg.bg then false
  else true

/-- `sanity_check_frame`: validates every pixel after noise and clamp;
any violation is a fatal `exit(1)` of the whole process. -/
def sanity_check_frame (cfg : Config) (labels : Grid ℕ)
    (depth : Grid FVal) : Bool :=
  (List.range labels.length).all fun y =>
    (List.range (labels.getD y []).length).all fun x =>
      px_ok cfg (gget labels y x 0) (gget depth y x (.fin 0))

/-- A bone of the frame's JSON sidecar, reduced to the coordinates the
flip transform touches: the x coordinates of its head and tail. -/
abbrev Bone := ℚ × ℚ

/-- `struct input_frame` together with the data loaded for it: the
scan-time global frame number, the file name (abstracted to an id), the
label image (already mapped through `grey_to_id_map` by
`load_frame_labels`), the depth image, and the optional JSON sidecar
(bones' head/tail x coordinates). -/
structure Frame where
  frameNo : ℕ
  path : ℕ
  labels : Grid ℕ
  depth : Grid FVal
  json : Option (List Bone)

/-- The kind of an output file. -/
inductive FileKind where
  | labelsK : FileKind
  | depthK : FileKind
  | jsonK : FileKind
deriving DecidableEq, Repr

/-- The identity of an output file: destination directory, frame file
name, whether it is the `-flipped` variant, and its kind. -/
structure FileKey where
  dir : ℕ
  path : ℕ
  flipped : Bool
  kind : FileKind
deriving DecidableEq, Repr

/-- The content of an output file. -/
inductive FileVal where
  | lab : Grid ℕ → FileVal
  | dep : Grid FVal → FileVal
  | js : List Bone → FileVal
deriving DecidableEq, Repr

/-- One write performed by the output path.  `overwrite = false` models
`save_frame_labels`/`save_frame_depth`, which `stat` the destination
and skip when it already exists; `overwrite = true` models the JSON
sidecar copies (`write_file` / `json_serialize_to_file_pretty`), which
perform no existence check. -/
structure Write where
  key : FileKey
  val : FileVal
  overwrite : Bool
deriving DecidableEq, Repr

/-- The destination file system, as a map from file identity to
content. -/
def FS := FileKey → Option FileVal

/-- Apply one write to the file system. -/
def applyWrite (fs : FS) (w : Write) : FS :=
  if w.overwrite then
    fun k => if k = w.key then some w.val else fs k
  else
    match fs w.key with
    | some _ => fs
    | none => fun k => if k = w.key then some w.val else fs k

/-- The engine state just before `frame_add_noise` for the unflipped
variant: `worker_thread_cb` reseeds the thread-local generator with
`seed_opt + out_frame_no` where `out_frame_no = frame_no * 2`. -/
def rngBeforeUnflippedNoise (cfg : Config) (f : Frame) : ℤ :=
  cfg.seed + 2 * f.frameNo

/-- The noised buffers of the unflipped variant together with the
engine state the noise ops leave behind. -/
def unflippedNoisy (S : Sampler) (cfg : Config) (f : Frame) :
    Grid ℕ × Grid FVal × ℤ :=
  frame_add_noise S cfg (rngBeforeUnflippedNoise cfg f)
    f.labels f.depth (2 * f.frameNo)

/-- The engine state just before `frame_add_noise` for the flipped
variant: `worker_thread_cb` does not reseed between the two variants,
so the flipped variant continues from the state the unflipped variant's
ops left behind. -/
def rngBeforeFlippedNoise (S : Sampler) (cfg : Config) (f : Frame) : ℤ :=
  (unflippedNoisy S cfg f).2.2

/-- The noised buffers of the flipped variant: the pre-noise buffers
are flipped (labels through the left/right swap table, depth with no
remap) and run through the same noise engine with
`out_frame_no = frame_no * 2 + 1`. -/
def flippedNoisy (S : Sampler) (cfg : Config) (f : Frame) :
    Grid ℕ × Grid FVal × ℤ :=
  frame_add_noise S cfg (rngBeforeFlippedNoise S cfg f)
    (flip_frame_labels cfg.swap f.labels) (flip_frame_depth f.depth)
    (2 * f.frameNo + 1)

/-- The JSON sidecar writes at the end of the frame loop: the raw
sidecar is copied (no existence check), and when flipping is enabled a
`-flipped` sidecar is written with every bone's head and tail x
coordinate negated. -/
def jsonWrites (cfg : Config) (dir : ℕ) (f : Frame) : List Write :=
  match f.json with
  | none => []
  | some bones =>
    ⟨⟨dir, f.path, false, .jsonK⟩, .js bones, true⟩ ::
      if cfg.noFlip then []
      else [⟨⟨dir, f.path, true, .jsonK⟩,
            .js (bones.map fun b => (-b.1, -b.2)), true⟩]

/-- Processing of one retained frame after the budget check: noise,
clamp, sanity guard and saves for the unflipped variant, the same path
for the flipped variant when flipping is enabled, then the JSON sidecar
copies.  Returns the writes performed in order together with a flag
that is `true` when `sanity_check_frame` called `exit(1)` (in which
case the writes already performed stay, and nothing later runs). -/
def processRetained (S : Sampler) (cfg : Config) (dir : ℕ) (f : Frame) :
    List Write × Bool :=
  let nl := (unflippedNoisy S cfg f).1
  let nd := clamp_depth cfg nl (unflippedNoisy S cfg f).2.1
  if sanity_check_frame cfg nl nd then
    let w1 : List Write :=
      [⟨⟨dir, f.path, false, .labelsK⟩, .lab nl, false⟩,
       ⟨⟨dir, f.path, false, .depthK⟩, .dep nd, false⟩]
    if cfg.noFlip then
      (w1 ++ jsonWrites cfg dir f, false)
    else
      let fl := (flippedNoisy S cfg f).1
      let fd := clamp_depth cfg fl (flippedNoisy S cfg f).2.1
      if sanity_check_frame cfg fl fd then
        (w1 ++
          [⟨⟨dir, f.path, true, .labelsK⟩, .lab fl, false⟩,
           ⟨⟨dir, f.path, true, .depthK⟩, .dep fd, false⟩] ++
          jsonWrites cfg dir f, false)
      else (w1, true)
  else ([], true)

/-- `struct work`: one directory's ordered frames, consumed by exactly
one worker. -/
structure WorkUnit where
  dir : ℕ
  frames : List Frame

/-- The per-unit state a worker holds while draining one work unit:
the frames not yet processed, the previous retained label image
(`prev_frame_labels`), and whether the unit's frame loop was abandoned
by the budget `break`. -/
structure UnitState where
  dir : ℕ
  pending : List Frame
  prev : Option (Grid ℕ)
  stopped : Bool

/-- The dummy unit used for out-of-range scheduler indices; it is
permanently stopped, so such indices are no-ops. -/
def dummyUnit : UnitState := ⟨0, [], none, true⟩

/-- The global run state: the shared atomic `frame_count`, the shared
`finished` flag, whether `exit(1)` was called (`dead`), a ghost count
of retained (fully processed) input frames, the destination file
system, and every unit's progress. -/
structure RunState where
  counter : ℕ
  finished : Bool
  dead : Bool
  retains : ℕ
  fs : FS
  units : List UnitState

/-- One scheduler step: the worker owning unit `i` processes that
unit's next frame.  This is the body of the frame loop of
`worker_thread_cb`: load, frame-diff filter, budget check (observing
`frame_count >= max_frame_count` sets `finished` and breaks out of the
unit), `frame_count += 2`, previous-frame update, and the per-frame
processing and writes. -/
def step (S : Sampler) (cfg : Config) (s : RunState) (i : ℕ) : RunState :=
  if s.dead then s
  else
    let u := s.units.getD i dummyUnit
    if u.stopped then s
    else
      match u.pending with
      | [] => s
      | f :: rest =>
        match filterDecision cfg u.prev f.labels with
        | .retain =>
          if cfg.maxFrameCount ≤ s.counter then
            { s with finished := true,
                     units := s.units.set i { u with stopped := true } }
          else
            let pr := processRetained S cfg u.dir f
            { counter := s.counter + 2,
              finished := s.finished,
              dead := pr.2,
              retains := s.retains + 1,
              fs := pr.1.foldl applyWrite s.fs,
              units := s.units.set i
                { u with pending := rest, prev := some f.labels } }
        | _ =>
          { s with units := s.units.set i { u with pending := rest } }

/-- The initial run state over the scanned work units and the
destination file system found at startup. -/
def initState (fs0 : FS) (units : List WorkUnit) : RunState :=
  { counter := 0,
    finished := false,
    dead := false,
    retains := 0,
    fs := fs0,
    units := units.map fun u => ⟨u.dir, u.frames, none, false⟩ }

/-- A whole run under scheduler `σ`: each element of `σ` names the unit
whose worker takes the next frame step. -/
def run (S : Sampler) (cfg : Config) (units : List WorkUnit)
    (σ : List ℕ) (fs0 : FS) : RunState :=
  σ.foldl (step S cfg) (initState fs0 units)

/-- The writes one unit performs when its frame loop runs to completion
unimpeded (no budget truncation, no sanity abort): the canonical
sequential semantics of a single worker draining one unit. -/
def unitRun (S : Sampler) (cfg : Config) (dir : ℕ) :
    List Frame → Option (Grid ℕ) → List Write
  | [], _ => []
  | f :: rest, prev =>
    match filterDecision cfg prev f.labels with
    | .retain => (processRetained S cfg dir f).1 ++
        unitRun S cfg dir rest (some f.labels)
    | _ => unitRun S cfg dir rest prev

/-- The canonical write list of a whole run, unit by unit. -/
def allWrites (S : Sampler) (cfg : Config) (units : List WorkUnit) :
    List Write :=
  (units.map fun u => unitRun S cfg u.dir u.frames none).flatten

/-- A scheduler is complete for the given units when it gives every
unit at least as many steps as it has frames. -/
def Complete (units : List WorkUnit) (σ : List ℕ) : Prop :=
  ∀ i, i < units.length → (units.getD i ⟨0, []⟩).frames.length ≤ σ.count i

/-- Total number of input frames over all units. -/
def totalFrames (units : List WorkUnit) : ℕ :=
  (units.map fun u => u.frames.length).sum

/-- Total number of frames still pending over all units of a run
state. -/
def unitsPending (t : RunState) : ℕ :=
  (t.units.map fun u => u.pending.length).sum

/-- The frame filter as the specification words it: drop with reason
"spurious empty frame" when the body-pixel count is zero, else drop
with reason "too small" when it is below `min_body_size_px`, else drop
with reason "too similar" when `100 × differing / body_pixels` is
strictly below `min_body_change_percent`, otherwise retain; the first
frame is retained unconditionally. -/
def filterDecisionSpec (cfg : Config) (prev : Option (Grid ℕ))
    (labels : Grid ℕ) : Decision :=
  match prev with
  | none => .retain
  | some p =>
    if n_body_px labels = 0 then .dropEmpty
    else if n_body_px labels < cfg.minBodySizePx then .dropTooSmall
    else if 100 * (n_different_px labels p : ℚ) / (n_body_px labels : ℚ) <
        cfg.minBodyChangePercent then .dropTooSimilar
    else .retain

/-- The invariant a run from a fresh output tree maintains when the
frame budget cannot truncate it and no sanity abort occurs: the process
is alive, no unit was stopped, every unit's progress matches the
canonical sequential semantics (`unitRun`) — with `W i` the writes unit
`i` has already performed, all in that unit's own directory — and the
file system holds exactly the performed writes, resolved per
directory. -/
def RInv (S : Sampler) (cfg : Config) (units : List WorkUnit)
    (t : RunState) : Prop :=
  t.dead = false ∧
  t.units.length = units.length ∧
  t.counter + 2 * unitsPending t ≤ 2 * totalFrames units ∧
  ∃ W : ℕ → List Write,
    (∀ i, i < units.length →
      (t.units.getD i dummyUnit).dir = (units.getD i ⟨0, []⟩).dir ∧
      (t.units.getD i dummyUnit).stopped = false ∧
      (∃ done, (units.getD i ⟨0, []⟩).frames =
        done ++ (t.units.getD i dummyUnit).pending) ∧
      unitRun S cfg (units.getD i ⟨0, []⟩).dir
          (units.getD i ⟨0, []⟩).frames none =
        W i ++ unitRun S cfg (units.getD i ⟨0, []⟩).dir
          (t.units.getD i dummyUnit).pending
          (t.units.getD i dummyUnit).prev ∧
      (∀ w ∈ W i, w.key.dir = (units.getD i ⟨0, []⟩).dir)) ∧
    (∀ k : FileKey,
      (∀ i, i < units.length → k.dir ≠ (units.getD i ⟨0, []⟩).dir) →
      t.fs k = none) ∧
    (∀ i, i < units.length → ∀ k : FileKey,
      k.dir = (units.getD i ⟨0, []⟩).dir →
      t.fs k = (W i).foldl applyWrite (fun _ => none) k)

/-- Two grids (possibly of different sample types) have the same
dimensions: same number of rows and, row by row, the same number of
columns.  In the pipeline every buffer is allocated at
`expected_width × expected_height`, so the label and depth buffers of a
frame always satisfy this. -/
def shapeEq (g1 : Grid α) (g2 : Grid β) : Prop :=
  g1.length = g2.length ∧ ∀ y, (g1.getD y []).length = (g2.getD y []).length

/-- The per-unit worker state of the fine-grained scheduler model:
like `UnitState`, plus `passed`, which records that the worker has
executed the budget check of line 1111 for its current frame (reading
`frame_count < max_frame_count`) but has not yet executed the
`frame_count += 2` of line 1115. -/
structure UnitStateF where
  dir : ℕ
  pending : List Frame
  prev : Option (Grid ℕ)
  stopped : Bool
  passed : Bool

/-- The dummy unit of the fine model; permanently stopped. -/
def dummyUnitF : UnitStateF := ⟨0, [], none, true, false⟩

/-- The global state of the fine-grained model. -/
structure RunStateF where
  counter : ℕ
  finished : Bool
  dead : Bool
  retains : ℕ
  fs : FS
  units : List UnitStateF

/-- One micro-step of the fine-grained scheduler model.  `step` treats
the budget check (line 1111) and `frame_count += 2` (line 1115) as one
transition, but in the source they are two separate atomic operations
on the shared `std::atomic` counter, so two workers may both pass the
check before either increment lands.  `fineStep` refines `step`
accordingly: with `phase = false` the worker for unit `i` performs the
frame-boundary work up to and including the budget check (load, filter,
check — observing exhaustion sets `finished` and abandons the unit,
otherwise the passed check is recorded); with `phase = true` a worker
whose check passed performs `frame_count += 2` and the rest of the
frame's processing and writes. -/
def fineStep (S : Sampler) (cfg : Config) (s : RunStateF) (i : ℕ)
    (phase : Bool) : RunStateF :=
  if s.dead then s
  else
    let u := s.units.getD i dummyUnitF
    if u.stopped then s
    else if phase = false then
      if u.passed then s
      else
        match u.pending with
        | [] => s
        | f :: rest =>
          match filterDecision cfg u.prev f.labels with
          | .retain =>
            if cfg.maxFrameCount ≤ s.counter then
              { s with finished := true,
                       units := s.units.set i { u with stopped := true } }
            else
              { s with units := s.units.set i { u with passed := true } }
          | _ =>
            { s with units := s.units.set i { u with pending := rest } }
    else
      if u.passed then
        match u.pending with
        | [] => s
        | f :: rest =>
          let pr := processRetained S cfg u.dir f
          { counter := s.counter + 2,
            finished := s.finished,
            dead := pr.2,
            retains := s.retains + 1,
            fs := pr.1.foldl applyWrite s.fs,
            units := s.units.set i
              { u with pending := rest, prev := some f.labels,
                       passed := false } }
      else s

/-- The initial fine-model state. -/
def initStateF (fs0 : FS) (units : List WorkUnit) : RunStateF :=
  { counter := 0,
    finished := false,
    dead := false,
    retains := 0,
    fs := fs0,
    units := units.map fun u => ⟨u.dir, u.frames, none, false, false⟩ }

/-- A whole run of the fine-grained model under a schedule of
`(unit, phase)` micro-steps. -/
def fineRun (S : Sampler) (cfg : Config) (units : List WorkUnit)
    (σ : List (ℕ × Bool)) (fs0 : FS) : RunStateF :=
  σ.foldl (fun s p => fineStep S cfg s p.1 p.2) (initStateF fs0 units)

/-- The number of workers currently between their budget check and
their increment (line 1111 passed, line 1115 not yet executed). -/
def passedCount (s : RunStateF) : ℕ :=
  s.units.countP fun u => u.passed

/-! ## General helper lemmas -/

lemma getD_mapIdx_of_lt {α β : Type} (r : List α) (f : ℕ → α → β) (x : ℕ)
    (hx : x < r.length) (d : α) (d' : β) :
    (r.mapIdx f).getD x d' = f x (r.getD x d) := by
  rw [List.getD_eq_getElem?_getD, List.getElem?_mapIdx,
    List.getElem?_eq_getElem hx]
  simp only [Option.map_some', Option.getD_some]
  rw [List.getD_eq_getElem?_getD, List.getElem?_eq_getElem hx, Option.getD_some]

lemma gget_mapIdx2 {α β : Type} (g : Grid α) (f : ℕ → ℕ → α → β) (y x : ℕ)
    (hy : y < g.length) (hx : x < (g.getD y []).length) (d : α) (d' : β) :
    gget (g.mapIdx fun y row => row.mapIdx fun x a => f y x a) y x d' =
      f y x (gget g y x d) := by
  unfold gget
  rw [getD_mapIdx_of_lt g _ y hy []]
  rw [getD_mapIdx_of_lt _ _ x hx d]

lemma reverse_map_invol {α : Type} (l : List α) (s : α → α)
    (h : ∀ x, s (s x) = x) : ((l.reverse.map s).reverse.map s) = l := by
  rw [← List.map_reverse, List.reverse_reverse, List.map_map]
  have hs : (fun x => s (s x)) = id := funext h
  simp only [Function.comp_def, hs, List.map_id]

lemma getD_set_self {α : Type} (l : List α) (i : ℕ) (h : i < l.length)
    (x d : α) : (l.set i x).getD i d = x := by
  rw [List.getD_eq_getElem?_getD, List.getElem?_set_self',
    List.getElem?_eq_getElem h]
  simp

lemma getD_stopped_lt (s : RunState) (i : ℕ)
    (h : (s.units.getD i dummyUnit).stopped = false) :
    i < s.units.length := by
  by_contra hc
  push_neg at hc
  rw [List.getD_eq_default _ _ hc] at h
  exact absurd h (by simp [dummyUnit])

/-! ## Case lemmas for the scheduler step -/

lemma step_dead (S : Sampler) (cfg : Config) (s : RunState) (i : ℕ)
    (h : s.dead = true) : step S cfg s i = s := by
  unfold step
  rw [h]
  simp

lemma step_stopped (S : Sampler) (cfg : Config) (s : RunState) (i : ℕ)
    (h : (s.units.getD i dummyUnit).stopped = true) :
    step S cfg s i = s := by
  unfold step
  by_cases hd : s.dead
  · rw [hd]; simp
  · rw [eq_false_of_ne_true hd]
    simp only [Bool.false_eq_true, if_false, h, if_true]

lemma step_nil (S : Sampler) (cfg : Config) (s : RunState) (i : ℕ)
    (hstop : (s.units.getD i dummyUnit).stopped = false)
    (hpend : (s.units.getD i dummyUnit).pending = []) :
    step S cfg s i = s := by
  unfold step
  by_cases hd : s.dead
  · rw [hd]; simp
  · rw [eq_false_of_ne_true hd]
    simp only [Bool.false_eq_true, if_false, hstop, hpend]

lemma step_drop (S : Sampler) (cfg : Config) (s : RunState) (i : ℕ)
    (f : Frame) (rest : List Frame)
    (hdead : s.dead = false)
    (hstop : (s.units.getD i dummyUnit).stopped = false)
    (hpend : (s.units.getD i dummyUnit).pending = f :: rest)
    (hfd : filterDecision cfg (s.units.getD i dummyUnit).prev f.labels ≠
      .retain) :
    step S cfg s i =
      { s with units :=
          s.units.set i ({ s.units.getD i dummyUnit with pending := rest }) } := by
  unfold step
  rw [hdead]
  simp only [Bool.false_eq_true, if_false, hstop, hpend]

lemma step_retain_fail (S : Sampler) (cfg : Config) (s : RunState) (i : ℕ)
    (f : Frame) (rest : List Frame)
    (hdead : s.dead = false)
    (hstop : (s.units.getD i dummyUnit).stopped = false)
    (hpend : (s.units.getD i dummyUnit).pending = f :: rest)
    (hfd : filterDecision cfg (s.units.getD i dummyUnit).prev f.labels =
      .retain)
    (hcnt : cfg.maxFrameCount ≤ s.counter) :
    step S cfg s i =
      { s with finished := true,
               units :=
                 s.units.set i ({ s.units.getD i dummyUnit with stopped := true }) } := by
  unfold step
  rw [hdead]
  simp only [Bool.false_eq_true, if_false, hstop, hpend, hfd]
  rw [if_pos hcnt]

lemma step_retain_pass (S : Sampler) (cfg : Config) (s : RunState) (i : ℕ)
    (f : Frame) (rest : List Frame)
    (hdead : s.dead = false)
    (hstop : (s.units.getD i dummyUnit).stopped = false)
    (hpend : (s.units.getD i dummyUnit).pending = f :: rest)
    (hfd : filterDecision cfg (s.units.getD i dummyUnit).prev f.labels =
      .retain)
    (hcnt : s.counter < cfg.maxFrameCount) :
    step S cfg s i =
      { counter := s.counter + 2,
        finished := s.finished,
        dead := (processRetained S cfg (s.units.getD i dummyUnit).dir f).2,
        retains := s.retains + 1,
        fs := (processRetained S cfg (s.units.getD i dummyUnit).dir
          f).1.foldl applyWrite s.fs,
        units :=
          s.units.set i
            ({ s.units.getD i dummyUnit with
                pending := rest, prev := some f.labels }) } := by
  unfold step
  rw [hdead]
  simp only [Bool.false_eq_true, if_false, hstop, hpend, hfd]
  rw [if_neg (not_le.mpr hcnt)]

/-! ## File-system and canonical-run helper lemmas -/

lemma applyWrite_at_ne (fs : FS) (w : Write) (k : FileKey)
    (h : k ≠ w.key) : applyWrite fs w k = fs k := by
  unfold applyWrite
  split_ifs with hov
  · simp [h]
  · cases fs w.key
    · simp [h]
    · rfl

lemma applyWrite_congr_at (fs1 fs2 : FS) (w : Write) (k : FileKey)
    (h : fs1 k = fs2 k) : applyWrite fs1 w k = applyWrite fs2 w k := by
  by_cases hk : k = w.key
  · subst hk
    unfold applyWrite
    split_ifs with hov
    · simp
    · cases hc : fs1 w.key with
      | some v =>
        have hc2 : fs2 w.key = some v := by rw [← h, hc]
        simp only [hc, hc2]
        try exact h
      | none =>
        have hc2 : fs2 w.key = none := by rw [← h, hc]
        simp only [hc, hc2]
  · rw [applyWrite_at_ne fs1 w k hk, applyWrite_at_ne fs2 w k hk]
    exact h

lemma foldl_applyWrite_congr_at (ws : List Write) :
    ∀ (fs1 fs2 : FS) (k : FileKey), fs1 k = fs2 k →
      ws.foldl applyWrite fs1 k = ws.foldl applyWrite fs2 k := by
  induction ws with
  | nil => intro fs1 fs2 k h; exact h
  | cons w ws ih =>
    intro fs1 fs2 k h
    exact ih _ _ k (applyWrite_congr_at fs1 fs2 w k h)

lemma foldl_applyWrite_ne (ws : List Write) :
    ∀ (fs : FS) (k : FileKey), (∀ w ∈ ws, w.key ≠ k) →
      ws.foldl applyWrite fs k = fs k := by
  induction ws with
  | nil => intro fs k _; rfl
  | cons w ws ih =>
    intro fs k h
    rw [List.foldl_cons]
    rw [ih _ k fun w' hw' => h w' (List.mem_cons_of_mem w hw')]
    exact applyWrite_at_ne fs w k
      (fun he => h w (List.mem_cons_self w ws) he.symm)

lemma unitRun_cons_retain (S : Sampler) (cfg : Config) (dir : ℕ)
    (f : Frame) (rest : List Frame) (prev : Option (Grid ℕ))
    (hfd : filterDecision cfg prev f.labels = .retain) :
    unitRun S cfg dir (f :: rest) prev =
      (processRetained S cfg dir f).1 ++
        unitRun S cfg dir rest (some f.labels) := by
  simp only [unitRun, hfd]

lemma unitRun_cons_drop (S : Sampler) (cfg : Config) (dir : ℕ)
    (f : Frame) (rest : List Frame) (prev : Option (Grid ℕ))
    (hfd : filterDecision cfg prev f.labels ≠ .retain) :
    unitRun S cfg dir (f :: rest) prev = unitRun S cfg dir rest prev := by
  cases hc : filterDecision cfg prev f.labels with
  | retain => exact absurd hc hfd
  | dropEmpty => simp only [unitRun, hc]
  | dropTooSmall => simp only [unitRun, hc]
  | dropTooSimilar => simp only [unitRun, hc]

lemma jsonWrites_shape (cfg : Config) (dir : ℕ) (f : Frame) :
    ∀ w ∈ jsonWrites cfg dir f,
      w.key.dir = dir ∧ w.key.path = f.path ∧
      w.key.kind = FileKind.jsonK := by
  intro w hw
  unfold jsonWrites at hw
  cases hj : f.json with
  | none => simp only [hj] at hw; cases hw
  | some bones =>
    simp only [hj, List.mem_cons] at hw
    rcases hw with hw | hw
    · subst hw; exact ⟨rfl, rfl, rfl⟩
    · by_cases hnf : cfg.noFlip
      · rw [if_pos hnf] at hw; cases hw
      · rw [if_neg hnf] at hw
        simp only [List.mem_singleton] at hw
        subst hw; exact ⟨rfl, rfl, rfl⟩

lemma processRetained_shape (S : Sampler) (cfg : Config) (dir : ℕ)
    (f : Frame) :
    ∀ w ∈ (processRetained S cfg dir f).1,
      w.key.dir = dir ∧ w.key.path = f.path ∧
      (w.overwrite = true → w.key.kind = FileKind.jsonK) := by
  intro w hw
  unfold processRetained at hw
  by_cases h1 : sanity_check_frame cfg
      ((unflippedNoisy S cfg f).1)
      (clamp_depth cfg (unflippedNoisy S cfg f).1
        (unflippedNoisy S cfg f).2.1) = true
  · rw [if_pos h1] at hw
    by_cases hnf : cfg.noFlip
    · rw [if_pos hnf] at hw
      simp only [List.mem_append, List.mem_cons,
        List.not_mem_nil, or_false] at hw
      rcases hw with (hw | hw) | hw
      · subst hw; exact ⟨rfl, rfl, fun h => nomatch h⟩
      · subst hw; exact ⟨rfl, rfl, fun h => nomatch h⟩
      · obtain ⟨ha, hb, hc⟩ := jsonWrites_shape cfg dir f w hw
        exact ⟨ha, hb, fun _ => hc⟩
    · rw [if_neg hnf] at hw
      by_cases h2 : sanity_check_frame cfg
          ((flippedNoisy S cfg f).1)
          (clamp_depth cfg (flippedNoisy S cfg f).1
            (flippedNoisy S cfg f).2.1) = true
      · rw [if_pos h2] at hw
        simp only [List.append_assoc, List.mem_append, List.mem_cons,
          List.not_mem_nil, or_false] at hw
        rcases hw with (hw | hw) | ((hw | hw) | hw)
        · subst hw; exact ⟨rfl, rfl, fun h => nomatch h⟩
        · subst hw; exact ⟨rfl, rfl, fun h => nomatch h⟩
        · subst hw; exact ⟨rfl, rfl, fun h => nomatch h⟩
        · subst hw; exact ⟨rfl, rfl, fun h => nomatch h⟩
        · obtain ⟨ha, hb, hc⟩ := jsonWrites_shape cfg dir f w hw
          exact ⟨ha, hb, fun _ => hc⟩
      · rw [if_neg h2] at hw
        simp only [List.mem_cons, List.not_mem_nil, or_false] at hw
        rcases hw with hw | hw
        · subst hw; exact ⟨rfl, rfl, fun h => nomatch h⟩
        · subst hw; exact ⟨rfl, rfl, fun h => nomatch h⟩
  · rw [if_neg h1] at hw
    cases hw

lemma getD_set_ne {α : Type} (l : List α) (j i : ℕ) (x d : α)
    (h : i ≠ j) : (l.set j x).getD i d = l.getD i d := by
  rw [List.getD_eq_getElem?_getD, List.getD_eq_getElem?_getD,
    List.getElem?_set_ne (fun he => h he.symm)]

lemma nodup_getD_ne {α : Type} {l : List α} (h : l.Nodup) {i j : ℕ}
    (hi : i < l.length) (hj : j < l.length) (hij : i ≠ j) (d : α) :
    l.getD i d ≠ l.getD j d := by
  rw [List.getD_eq_getElem?_getD, List.getElem?_eq_getElem hi,
    List.getD_eq_getElem?_getD, List.getElem?_eq_getElem hj]
  simp only [Option.getD_some]
  intro he
  exact hij (List.Nodup.getElem_inj_iff h |>.mp he)

lemma getD_map_dir (units : List WorkUnit) (i : ℕ)
    (hi : i < units.length) :
    (units.map WorkUnit.dir).getD i 0 = (units.getD i ⟨0, []⟩).dir := by
  rw [List.getD_eq_getElem?_getD, List.getElem?_map,
    List.getElem?_eq_getElem hi]
  simp only [Option.map_some', Option.getD_some]
  rw [List.getD_eq_getElem?_getD, List.getElem?_eq_getElem hi,
    Option.getD_some]

lemma units_dir_ne (units : List WorkUnit)
    (hdirs : (units.map WorkUnit.dir).Nodup) {i j : ℕ}
    (hi : i < units.length) (hj : j < units.length) (hij : i ≠ j) :
    (units.getD i ⟨0, []⟩).dir ≠ (units.getD j ⟨0, []⟩).dir := by
  rw [← getD_map_dir units i hi, ← getD_map_dir units j hj]
  exact nodup_getD_ne hdirs (by simpa using hi) (by simpa using hj) hij 0

lemma shapeEq_refl {α : Type} (g : Grid α) : shapeEq g g :=
  ⟨rfl, fun _ => rfl⟩

lemma shapeEq_symm {α β : Type} {g1 : Grid α} {g2 : Grid β}
    (h : shapeEq g1 g2) : shapeEq g2 g1 :=
  ⟨h.1.symm, fun y => (h.2 y).symm⟩

lemma shapeEq_trans {α β γ : Type} {g1 : Grid α} {g2 : Grid β}
    {g3 : Grid γ} (h12 : shapeEq g1 g2) (h23 : shapeEq g2 g3) :
    shapeEq g1 g3 :=
  ⟨h12.1.trans h23.1, fun y => (h12.2 y).trans (h23.2 y)⟩

lemma gset_shape {α : Type} (g : Grid α) (y x : ℕ) (v : α) :
    shapeEq (gset g y x v) g := by
  unfold gset
  constructor
  · exact List.length_set g y _
  · intro y'
    by_cases hy' : y' = y
    · subst hy'
      by_cases hlt : y' < g.length
      · rw [getD_set_self _ _ hlt]
        exact List.length_set _ _ _
      · push_neg at hlt
        rw [List.getD_eq_default _ _ (by rw [List.length_set]; exact hlt),
          List.getD_eq_default _ _ hlt]
    · rw [getD_set_ne _ _ _ _ _ hy']

lemma mapIdx2_shape {α β : Type} (g : Grid α) (f : ℕ → ℕ → α → β) :
    shapeEq (g.mapIdx fun y row => row.mapIdx fun x a => f y x a) g := by
  constructor
  · exact List.length_mapIdx
  · intro y
    by_cases hy : y < g.length
    · rw [getD_mapIdx_of_lt g _ y hy []]
      exact List.length_mapIdx
    · push_neg at hy
      rw [List.getD_eq_default _ _ (by rw [List.length_mapIdx]; exact hy),
        List.getD_eq_default _ _ hy]
      rfl

lemma mapAccumL_snd_length {σ α β : Type} (f : σ → α → σ × β) :
    ∀ (l : List α) (s : σ), ((mapAccumL f s l).2).length = l.length := by
  intro l
  induction l with
  | nil => intro s; rfl
  | cons a as ih =>
    intro s
    show ((f s a).2 :: (mapAccumL f (f s a).1 as).2).length = as.length + 1
    rw [List.length_cons, ih]

lemma mapAccumL_grid_shape {σ α β : Type} (f : σ → α → σ × β) :
    ∀ (g : List (List α)) (s : σ),
      shapeEq (mapAccumL (fun s' row => mapAccumL f s' row) s g).2 g := by
  intro g
  induction g with
  | nil => intro s; exact ⟨rfl, fun _ => rfl⟩
  | cons r rs ih =>
    intro s
    constructor
    · show ((mapAccumL f s r).2 ::
        (mapAccumL _ (mapAccumL f s r).1 rs).2).length = (r :: rs).length
      rw [List.length_cons, List.length_cons, ((ih _).1)]
    · intro y
      cases y with
      | zero => exact mapAccumL_snd_length f r s
      | succ y => exact (ih _).2 y

lemma foldl_invariant {σ β : Type} (f : σ → β → σ) (Q : σ → Prop)
    (h : ∀ st a, Q st → Q (f st a)) :
    ∀ (l : List β) (st : σ), Q st → Q (l.foldl f st) := by
  intro l
  induction l with
  | nil => exact fun st hq => hq
  | cons a as ih => exact fun st hq => ih (f st a) (h st a hq)

lemma swizzle_shape (S : Sampler) (labels : Grid ℕ) (depth : Grid FVal)
    (rng : ℤ) :
    shapeEq (apply_foreground_edge_swizzle S labels depth rng).1 labels ∧
    shapeEq (apply_foreground_edge_swizzle S labels depth rng).2.1
      depth := by
  unfold apply_foreground_edge_swizzle
  refine foldl_invariant _
    (fun st : Grid ℕ × Grid FVal × ℤ =>
      shapeEq st.1 labels ∧ shapeEq st.2.1 depth) ?_ _ _
    ⟨shapeEq_refl _, shapeEq_refl _⟩
  intro st a hq
  simp only [swizzlePixel]
  split_ifs with h1 h2
  · exact ⟨shapeEq_trans (gset_shape _ _ _ _) hq.1,
      shapeEq_trans (gset_shape _ _ _ _) hq.2⟩
  · exact hq
  · exact hq

lemma applyNoiseOp_shape (S : Sampler) (cfg : Config) (frameNo : ℕ)
    (st : Grid ℕ × Grid FVal × ℤ) (op : NoiseOp) :
    shapeEq (applyNoiseOp S cfg frameNo st op).1 st.1 ∧
    shapeEq (applyNoiseOp S cfg frameNo st op).2.1 st.2.1 := by
  cases op with
  | foregroundEdgeSwizzle => exact swizzle_shape S st.1 st.2.1 st.2.2
  | normal fwtm =>
    exact ⟨shapeEq_refl _, mapAccumL_grid_shape _ st.2.1 st.2.2⟩
  | perlin freq amp oct =>
    exact ⟨shapeEq_refl _, mapIdx2_shape st.2.1 _⟩

lemma frame_add_noise_shape (S : Sampler) (cfg : Config) (rng : ℤ)
    (labels : Grid ℕ) (depth : Grid FVal) (frameNo : ℕ) :
    shapeEq (frame_add_noise S cfg rng labels depth frameNo).1 labels ∧
    shapeEq (frame_add_noise S cfg rng labels depth frameNo).2.1
      depth := by
  unfold frame_add_noise
  refine foldl_invariant _
    (fun st : Grid ℕ × Grid FVal × ℤ =>
      shapeEq st.1 labels ∧ shapeEq st.2.1 depth) ?_ _ _
    ⟨shapeEq_refl _, shapeEq_refl _⟩
  intro st op hq
  have h := applyNoiseOp_shape S cfg frameNo st op
  exact ⟨shapeEq_trans h.1 hq.1, shapeEq_trans h.2 hq.2⟩

lemma clamp_depth_shape (cfg : Config) (labels : Grid ℕ)
    (depth : Grid FVal) : shapeEq (clamp_depth cfg labels depth) depth :=
  mapIdx2_shape depth _

lemma getD_map_of_lt {α β : Type} (l : List α) (f : α → β) (y : ℕ)
    (hy : y < l.length) (d : α) (d' : β) :
    (l.map f).getD y d' = f (l.getD y d) := by
  rw [List.getD_eq_getElem?_getD, List.getElem?_map,
    List.getElem?_eq_getElem hy]
  simp only [Option.map_some', Option.getD_some]
  rw [List.getD_eq_getElem?_getD, List.getElem?_eq_getElem hy,
    Option.getD_some]

lemma flip_frame_labels_shape (swap : ℕ → ℕ) (labels : Grid ℕ) :
    shapeEq (flip_frame_labels swap labels) labels := by
  unfold flip_frame_labels
  constructor
  · exact List.length_map _ _
  · intro y
    by_cases hy : y < labels.length
    · rw [getD_map_of_lt labels _ y hy []]
      simp only [List.length_map, List.length_reverse]
    · push_neg at hy
      rw [List.getD_eq_default _ _ (by rw [List.length_map]; exact hy),
        List.getD_eq_default _ _ hy]

lemma flip_frame_depth_shape (depth : Grid FVal) :
    shapeEq (flip_frame_depth depth) depth := by
  unfold flip_frame_depth
  constructor
  · exact List.length_map _ _
  · intro y
    by_cases hy : y < depth.length
    · rw [getD_map_of_lt depth _ y hy []]
      simp only [List.length_reverse]
    · push_neg at hy
      rw [List.getD_eq_default _ _ (by rw [List.length_map]; exact hy),
        List.getD_eq_default _ _ hy]

lemma step_rec (S : Sampler) (cfg : Config) (s : RunState) (i : ℕ)
    (P : RunState → Prop)
    (hsame : s.dead = true ∨ (s.units.getD i dummyUnit).stopped = true ∨
      (s.units.getD i dummyUnit).pending = [] → P s)
    (hdrop : ∀ f rest,
      s.dead = false →
      (s.units.getD i dummyUnit).stopped = false →
      (s.units.getD i dummyUnit).pending = f :: rest →
      filterDecision cfg (s.units.getD i dummyUnit).prev f.labels ≠
        .retain →
      P { s with units :=
            s.units.set i ({ s.units.getD i dummyUnit with pending := rest }) })
    (hfail : ∀ f rest,
      s.dead = false →
      (s.units.getD i dummyUnit).stopped = false →
      (s.units.getD i dummyUnit).pending = f :: rest →
      filterDecision cfg (s.units.getD i dummyUnit).prev f.labels =
        .retain →
      cfg.maxFrameCount ≤ s.counter →
      P { s with finished := true,
                 units :=
                   s.units.set i ({ s.units.getD i dummyUnit with stopped := true }) })
    (hpass : ∀ f rest,
      s.dead = false →
      (s.units.getD i dummyUnit).stopped = false →
      (s.units.getD i dummyUnit).pending = f :: rest →
      filterDecision cfg (s.units.getD i dummyUnit).prev f.labels =
        .retain →
      s.counter < cfg.maxFrameCount →
      P { counter := s.counter + 2,
          finished := s.finished,
          dead := (processRetained S cfg
            (s.units.getD i dummyUnit).dir f).2,
          retains := s.retains + 1,
          fs := (processRetained S cfg (s.units.getD i dummyUnit).dir
            f).1.foldl applyWrite s.fs,
          units :=
            s.units.set i ({ s.units.getD i dummyUnit with
              pending := rest, prev := some f.labels }) }) :
    P (step S cfg s i) := by
  by_cases hd : s.dead = true
  · rw [step_dead S cfg s i hd]; exact hsame (Or.inl hd)
  · have hd' := eq_false_of_ne_true hd
    by_cases hstop : (s.units.getD i dummyUnit).stopped = true
    · rw [step_stopped S cfg s i hstop]; exact hsame (Or.inr (Or.inl hstop))
    · have hstop' := eq_false_of_ne_true hstop
      cases hpend : (s.units.getD i dummyUnit).pending with
      | nil =>
        rw [step_nil S cfg s i hstop' hpend]
        exact hsame (Or.inr (Or.inr hpend))
      | cons f rest =>
        cases hfd : filterDecision cfg (s.units.getD i dummyUnit).prev
            f.labels with
        | retain =>
          by_cases hcnt : cfg.maxFrameCount ≤ s.counter
          · rw [step_retain_fail S cfg s i f rest hd' hstop' hpend hfd hcnt]
            exact hfail f rest hd' hstop' hpend hfd hcnt
          · rw [step_retain_pass S cfg s i f rest hd' hstop' hpend hfd
              (not_le.mp hcnt)]
            exact hpass f rest hd' hstop' hpend hfd (not_le.mp hcnt)
        | dropEmpty =>
          rw [step_drop S cfg s i f rest hd' hstop' hpend (by rw [hfd]; simp)]
          exact hdrop f rest hd' hstop' hpend (by rw [hfd]; simp)
        | dropTooSmall =>
          rw [step_drop S cfg s i f rest hd' hstop' hpend (by rw [hfd]; simp)]
          exact hdrop f rest hd' hstop' hpend (by rw [hfd]; simp)
        | dropTooSimilar =>
          rw [step_drop S cfg s i f rest hd' hstop' hpend (by rw [hfd]; simp)]
          exact hdrop f rest hd' hstop' hpend (by rw [hfd]; simp)

lemma getD_mem_of_lt {α : Type} (l : List α) (i : ℕ) (hi : i < l.length)
    (d : α) : l.getD i d ∈ l := by
  rw [List.getD_eq_getElem?_getD, List.getElem?_eq_getElem hi,
    Option.getD_some]
  exact List.getElem_mem hi

lemma sum_map_set (l : List UnitState) :
    ∀ (j : ℕ) (x : UnitState), j < l.length →
      ((l.set j x).map fun u => u.pending.length).sum +
          (l.getD j dummyUnit).pending.length =
        (l.map fun u => u.pending.length).sum + x.pending.length := by
  induction l with
  | nil => intro j x hj; cases hj
  | cons a as ih =>
    intro j x hj
    cases j with
    | zero => simp [List.set]; omega
    | succ j =>
      have hj' : j < as.length := by simpa using hj
      have := ih j x hj'
      simp only [List.set, List.map_cons, List.sum_cons, List.getD_cons_succ]
      omega

lemma pending_le_unitsPending (t : RunState) (j : ℕ)
    (hj : j < t.units.length) :
    (t.units.getD j dummyUnit).pending.length ≤ unitsPending t := by
  unfold unitsPending
  refine List.single_le_sum (fun n _ => Nat.zero_le n) _ ?_
  exact List.mem_map_of_mem _ (getD_mem_of_lt t.units j hj dummyUnit)

lemma foldl_step_inv (S : Sampler) (cfg : Config) (P : RunState → Prop)
    (hstep : ∀ s i, P s → P (step S cfg s i)) :
    ∀ (σ : List ℕ) (s : RunState), P s → P (σ.foldl (step S cfg) s) := by
  intro σ
  induction σ with
  | nil => exact fun s h => h
  | cons i σ ih => exact fun s h => ih (step S cfg s i) (hstep s i h)

lemma step_preserves_RInv (S : Sampler) (cfg : Config)
    (units : List WorkUnit)
    (hdirs : (units.map WorkUnit.dir).Nodup)
    (hmax : 2 * totalFrames units ≤ cfg.maxFrameCount)
    (hok : ∀ u ∈ units, ∀ f ∈ u.frames,
      (processRetained S cfg u.dir f).2 = false)
    (t : RunState) (j : ℕ) (h : RInv S cfg units t) :
    RInv S cfg units (step S cfg t j) ∧
    (∀ i, i < units.length →
      ((step S cfg t j).units.getD i dummyUnit).pending.length =
        (t.units.getD i dummyUnit).pending.length -
          (if i = j then 1 else 0)) := by
  obtain ⟨hdead, hlen, hcnt, W, hunits, hfsnone, hfsunit⟩ := h
  refine step_rec S cfg t j
    (fun t' => RInv S cfg units t' ∧
      ∀ i, i < units.length →
        (t'.units.getD i dummyUnit).pending.length =
          (t.units.getD i dummyUnit).pending.length -
            (if i = j then 1 else 0)) ?_ ?_ ?_ ?_
  · intro hreason
    refine ⟨⟨hdead, hlen, hcnt, W, hunits, hfsnone, hfsunit⟩, ?_⟩
    intro i hi
    by_cases hij : i = j
    · subst hij
      rcases hreason with hr | hr | hr
      · rw [hdead] at hr; cases hr
      · have hsf := (hunits i hi).2.1
        rw [hsf] at hr; cases hr
      · rw [hr]; simp
    · simp [hij]
  · intro f rest hd' hstop hpend hfd
    have hjlt : j < t.units.length := getD_stopped_lt t j hstop
    have hjn : j < units.length := by rw [← hlen]; exact hjlt
    obtain ⟨hdir_j, hstop_j, ⟨done, hdone⟩, hrun_j, hWdir_j⟩ := hunits j hjn
    have hs0 := sum_map_set t.units j
      ({ t.units.getD j dummyUnit with pending := rest }) hjlt
    rw [hpend] at hs0
    have hs : ((t.units.set j ({ t.units.getD j dummyUnit with
        pending := rest })).map fun u => u.pending.length).sum +
        (rest.length + 1) =
        (t.units.map fun u => u.pending.length).sum + rest.length := hs0
    refine ⟨⟨hdead, ?_, ?_, W, ?_, hfsnone, hfsunit⟩, ?_⟩
    · show (t.units.set j _).length = units.length
      rw [List.length_set]; exact hlen
    · show t.counter + 2 *
        (((t.units.set j ({ t.units.getD j dummyUnit with
          pending := rest })).map fun u => u.pending.length).sum) ≤
        2 * totalFrames units
      have hcnt' : t.counter + 2 *
          ((t.units.map fun u => u.pending.length).sum) ≤
          2 * totalFrames units := hcnt
      omega
    · intro i hi
      by_cases hij : i = j
      · subst hij
        rw [show ((t.units.set i
            ({ t.units.getD i dummyUnit with pending := rest })).getD i
            dummyUnit) =
            { t.units.getD i dummyUnit with pending := rest } from
          getD_set_self _ _ hjlt _ _]
        refine ⟨hdir_j, hstop_j, ⟨done ++ [f], ?_⟩, ?_, hWdir_j⟩
        · rw [hdone, hpend]; simp
        · show unitRun S cfg _ _ none = W i ++ unitRun S cfg _ rest
            (t.units.getD i dummyUnit).prev
          rw [hrun_j, hpend,
            unitRun_cons_drop S cfg _ f rest _ hfd]
      · rw [show ((t.units.set j _).getD i dummyUnit) =
            t.units.getD i dummyUnit from getD_set_ne _ _ _ _ _ hij]
        exact hunits i hi
    · intro i hi
      by_cases hij : i = j
      · subst hij
        rw [show ((t.units.set i
            ({ t.units.getD i dummyUnit with pending := rest })).getD i
            dummyUnit) =
            { t.units.getD i dummyUnit with pending := rest } from
          getD_set_self _ _ hjlt _ _]
        rw [hpend]
        simp
      · rw [show ((t.units.set j _).getD i dummyUnit) =
            t.units.getD i dummyUnit from getD_set_ne _ _ _ _ _ hij]
        simp [hij]
  · intro f rest hd' hstop hpend hfd hge
    exfalso
    have hjlt : j < t.units.length := getD_stopped_lt t j hstop
    have hpl : 1 ≤ (t.units.getD j dummyUnit).pending.length := by
      rw [hpend]; simp
    have hle := pending_le_unitsPending t j hjlt
    have hcnt' : t.counter + 2 * unitsPending t ≤ 2 * totalFrames units :=
      hcnt
    omega
  · intro f rest hd' hstop hpend hfd hlt
    have hjlt : j < t.units.length := getD_stopped_lt t j hstop
    have hjn : j < units.length := by rw [← hlen]; exact hjlt
    obtain ⟨hdir_j, hstop_j, ⟨done, hdone⟩, hrun_j, hWdir_j⟩ := hunits j hjn
    have hfmem : f ∈ (units.getD j ⟨0, []⟩).frames := by
      rw [hdone, hpend]
      exact List.mem_append_right done (List.mem_cons_self f rest)
    have humem : units.getD j ⟨0, []⟩ ∈ units :=
      getD_mem_of_lt units j hjn _
    have hpr2 : (processRetained S cfg
        (t.units.getD j dummyUnit).dir f).2 = false := by
      rw [hdir_j]
      exact hok _ humem f hfmem
    have hs0 := sum_map_set t.units j
      ({ t.units.getD j dummyUnit with
          pending := rest, prev := some f.labels }) hjlt
    rw [hpend] at hs0
    have hs : ((t.units.set j ({ t.units.getD j dummyUnit with
        pending := rest, prev := some f.labels })).map
          fun u => u.pending.length).sum + (rest.length + 1) =
        (t.units.map fun u => u.pending.length).sum + rest.length := hs0
    refine ⟨⟨hpr2, ?_, ?_,
      Function.update W j
        (W j ++ (processRetained S cfg
          (t.units.getD j dummyUnit).dir f).1), ?_, ?_, ?_⟩, ?_⟩
    · show (t.units.set j _).length = units.length
      rw [List.length_set]; exact hlen
    · show (t.counter + 2) + 2 *
        (((t.units.set j ({ t.units.getD j dummyUnit with
          pending := rest, prev := some f.labels })).map
            fun u => u.pending.length).sum) ≤
        2 * totalFrames units
      have hcnt' : t.counter + 2 *
          ((t.units.map fun u => u.pending.length).sum) ≤
          2 * totalFrames units := hcnt
      omega
    · intro i hi
      by_cases hij : i = j
      · subst hij
        rw [show ((t.units.set i
            ({ t.units.getD i dummyUnit with
                pending := rest, prev := some f.labels })).getD i
            dummyUnit) =
            { t.units.getD i dummyUnit with
                pending := rest, prev := some f.labels } from
          getD_set_self _ _ hjlt _ _]
        rw [Function.update_same]
        refine ⟨hdir_j, hstop_j, ⟨done ++ [f], ?_⟩, ?_, ?_⟩
        · rw [hdone, hpend]; simp
        · show unitRun S cfg _ _ none =
            (W i ++ (processRetained S cfg
              (t.units.getD i dummyUnit).dir f).1) ++
            unitRun S cfg _ rest (some f.labels)
          rw [hrun_j, hpend,
            unitRun_cons_retain S cfg _ f rest _ hfd, hdir_j,
            List.append_assoc]
        · intro w hw
          rcases List.mem_append.mp hw with hw | hw
          · exact hWdir_j w hw
          · rw [(processRetained_shape S cfg _ f w hw).1]
            exact hdir_j
      · rw [show ((t.units.set j _).getD i dummyUnit) =
            t.units.getD i dummyUnit from getD_set_ne _ _ _ _ _ hij]
        rw [Function.update_noteq hij]
        exact hunits i hi
    · intro k hnk
      show ((processRetained S cfg (t.units.getD j dummyUnit).dir
        f).1.foldl applyWrite t.fs) k = none
      rw [foldl_applyWrite_ne _ t.fs k
        (fun w hw heq => hnk j hjn (by
          rw [← heq, (processRetained_shape S cfg _ f w hw).1, hdir_j]))]
      exact hfsnone k hnk
    · intro i hi k hk
      by_cases hij : i = j
      · subst hij
        rw [Function.update_same]
        show ((processRetained S cfg (t.units.getD i dummyUnit).dir
          f).1.foldl applyWrite t.fs) k =
          ((W i ++ (processRetained S cfg
            (t.units.getD i dummyUnit).dir f).1).foldl applyWrite
            (fun _ => none)) k
        rw [List.foldl_append]
        exact foldl_applyWrite_congr_at _ t.fs _ k (hfsunit i hi k hk)
      · rw [Function.update_noteq hij]
        show ((processRetained S cfg (t.units.getD j dummyUnit).dir
          f).1.foldl applyWrite t.fs) k =
          ((W i).foldl applyWrite (fun _ => none)) k
        have hdij : (units.getD i ⟨0, []⟩).dir ≠
            (units.getD j ⟨0, []⟩).dir :=
          units_dir_ne units hdirs hi hjn hij
        rw [foldl_applyWrite_ne _ t.fs k
          (fun w hw heq => hdij (by
            rw [← hk, ← heq, (processRetained_shape S cfg _ f w hw).1,
              hdir_j]))]
        exact hfsunit i hi k hk
    · intro i hi
      by_cases hij : i = j
      · subst hij
        rw [show ((t.units.set i
            ({ t.units.getD i dummyUnit with
                pending := rest, prev := some f.labels })).getD i
            dummyUnit) =
            { t.units.getD i dummyUnit with
                pending := rest, prev := some f.labels } from
          getD_set_self _ _ hjlt _ _]
        rw [hpend]
        simp
      · rw [show ((t.units.set j _).getD i dummyUnit) =
            t.units.getD i dummyUnit from getD_set_ne _ _ _ _ _ hij]
        simp [hij]

lemma initState_RInv (S : Sampler) (cfg : Config)
    (units : List WorkUnit) :
    RInv S cfg units (initState (fun _ => none) units) := by
  refine ⟨rfl, ?_, ?_, fun _ => [], ?_, ?_, ?_⟩
  · show (units.map _).length = units.length
    rw [List.length_map]
  · show 0 + 2 * unitsPending (initState (fun _ => none) units) ≤
      2 * totalFrames units
    have he : unitsPending (initState (fun _ => none) units) =
        totalFrames units := by
      unfold unitsPending initState totalFrames
      rw [List.map_map]
      rfl
    omega
  · intro i hi
    have hg : (initState (fun _ => none) units).units.getD i dummyUnit =
        ⟨(units.getD i ⟨0, []⟩).dir, (units.getD i ⟨0, []⟩).frames,
          none, false⟩ :=
      getD_map_of_lt units
        (fun u => (⟨u.dir, u.frames, none, false⟩ : UnitState)) i hi
        ⟨0, []⟩ dummyUnit
    rw [hg]
    exact ⟨rfl, rfl, ⟨[], rfl⟩, rfl,
      fun w hw => absurd hw (List.not_mem_nil w)⟩
  · intro k _; rfl
  · intro i hi k hk; rfl

lemma run_RInv_pending (S : Sampler) (cfg : Config)
    (units : List WorkUnit)
    (hdirs : (units.map WorkUnit.dir).Nodup)
    (hmax : 2 * totalFrames units ≤ cfg.maxFrameCount)
    (hok : ∀ u ∈ units, ∀ f ∈ u.frames,
      (processRetained S cfg u.dir f).2 = false) :
    ∀ (σ : List ℕ) (t : RunState), RInv S cfg units t →
      RInv S cfg units (σ.foldl (step S cfg) t) ∧
      ∀ i, i < units.length →
        ((σ.foldl (step S cfg) t).units.getD i dummyUnit).pending.length ≤
          (t.units.getD i dummyUnit).pending.length - σ.count i := by
  intro σ
  induction σ with
  | nil => exact fun t h => ⟨h, fun i hi => by simp⟩
  | cons j σ' ih =>
    intro t h
    obtain ⟨h1, h2⟩ := step_preserves_RInv S cfg units hdirs hmax hok t j h
    obtain ⟨h3, h4⟩ := ih (step S cfg t j) h1
    refine ⟨h3, fun i hi => ?_⟩
    rw [List.foldl_cons]
    have ha := h4 i hi
    have hb := h2 i hi
    by_cases hij : i = j
    · subst hij
      rw [if_pos rfl] at hb
      rw [List.count_cons_self]
      omega
    · rw [if_neg hij] at hb
      rw [List.count_cons_of_ne hij]
      omega

lemma getD_stopped_lt_F (l : List UnitStateF) (i : ℕ)
    (h : (l.getD i dummyUnitF).stopped = false) : i < l.length := by
  by_contra hc
  push_neg at hc
  rw [List.getD_eq_default _ _ hc] at h
  exact absurd h (by simp [dummyUnitF])

lemma fineStep_dead (S : Sampler) (cfg : Config) (s : RunStateF)
    (i : ℕ) (ph : Bool) (h : s.dead = true) :
    fineStep S cfg s i ph = s := by
  unfold fineStep
  rw [h]
  simp

lemma fineStep_stopped (S : Sampler) (cfg : Config) (s : RunStateF)
    (i : ℕ) (ph : Bool)
    (h : (s.units.getD i dummyUnitF).stopped = true) :
    fineStep S cfg s i ph = s := by
  unfold fineStep
  by_cases hd : s.dead
  · rw [hd]; simp
  · rw [eq_false_of_ne_true hd]
    simp only [Bool.false_eq_true, if_false, h, if_true]

lemma fineStep_check_seen (S : Sampler) (cfg : Config) (s : RunStateF)
    (i : ℕ)
    (hdead : s.dead = false)
    (hstop : (s.units.getD i dummyUnitF).stopped = false)
    (hpass : (s.units.getD i dummyUnitF).passed = true) :
    fineStep S cfg s i false = s := by
  unfold fineStep
  rw [hdead]
  simp only [Bool.false_eq_true, if_false, hstop, hpass, if_true]

lemma fineStep_check_nil (S : Sampler) (cfg : Config) (s : RunStateF)
    (i : ℕ)
    (hdead : s.dead = false)
    (hstop : (s.units.getD i dummyUnitF).stopped = false)
    (hpass : (s.units.getD i dummyUnitF).passed = false)
    (hpend : (s.units.getD i dummyUnitF).pending = []) :
    fineStep S cfg s i false = s := by
  unfold fineStep
  rw [hdead]
  simp only [Bool.false_eq_true, if_false, hstop, hpass, hpend]
  rw [if_pos trivial]

lemma fineStep_check_drop (S : Sampler) (cfg : Config) (s : RunStateF)
    (i : ℕ) (f : Frame) (rest : List Frame)
    (hdead : s.dead = false)
    (hstop : (s.units.getD i dummyUnitF).stopped = false)
    (hpass : (s.units.getD i dummyUnitF).passed = false)
    (hpend : (s.units.getD i dummyUnitF).pending = f :: rest)
    (hfd : filterDecision cfg (s.units.getD i dummyUnitF).prev f.labels ≠
      .retain) :
    fineStep S cfg s i false =
      { s with units :=
          s.units.set i ({ s.units.getD i dummyUnitF with pending := rest }) } := by
  unfold fineStep
  rw [hdead]
  simp only [Bool.false_eq_true, if_false, hstop, hpass, hpend]
  simp only [if_true]

lemma fineStep_check_stop (S : Sampler) (cfg : Config) (s : RunStateF)
    (i : ℕ) (f : Frame) (rest : List Frame)
    (hdead : s.dead = false)
    (hstop : (s.units.getD i dummyUnitF).stopped = false)
    (hpass : (s.units.getD i dummyUnitF).passed = false)
    (hpend : (s.units.getD i dummyUnitF).pending = f :: rest)
    (hfd : filterDecision cfg (s.units.getD i dummyUnitF).prev f.labels =
      .retain)
    (hcnt : cfg.maxFrameCount ≤ s.counter) :
    fineStep S cfg s i false =
      { s with finished := true,
               units :=
                 s.units.set i ({ s.units.getD i dummyUnitF with stopped := true }) } := by
  unfold fineStep
  rw [hdead]
  simp only [Bool.false_eq_true, if_false, hstop, hpass, hpend, hfd]
  simp only [if_true]
  rw [if_pos hcnt]

lemma fineStep_check_pass (S : Sampler) (cfg : Config) (s : RunStateF)
    (i : ℕ) (f : Frame) (rest : List Frame)
    (hdead : s.dead = false)
    (hstop : (s.units.getD i dummyUnitF).stopped = false)
    (hpass : (s.units.getD i dummyUnitF).passed = false)
    (hpend : (s.units.getD i dummyUnitF).pending = f :: rest)
    (hfd : filterDecision cfg (s.units.getD i dummyUnitF).prev f.labels =
      .retain)
    (hcnt : s.counter < cfg.maxFrameCount) :
    fineStep S cfg s i false =
      { s with units :=
          s.units.set i ({ s.units.getD i dummyUnitF with passed := true }) } := by
  unfold fineStep
  rw [hdead]
  simp only [Bool.false_eq_true, if_false, hstop, hpass, hpend, hfd]
  simp only [if_true]
  rw [if_neg (not_le.mpr hcnt)]

lemma fineStep_commit_idle (S : Sampler) (cfg : Config) (s : RunStateF)
    (i : ℕ)
    (hdead : s.dead = false)
    (hstop : (s.units.getD i dummyUnitF).stopped = false)
    (hpass : (s.units.getD i dummyUnitF).passed = false) :
    fineStep S cfg s i true = s := by
  unfold fineStep
  rw [hdead]
  simp only [Bool.false_eq_true, if_false, hstop, hpass]
  simp

lemma fineStep_commit_nil (S : Sampler) (cfg : Config) (s : RunStateF)
    (i : ℕ)
    (hdead : s.dead = false)
    (hstop : (s.units.getD i dummyUnitF).stopped = false)
    (hpass : (s.units.getD i dummyUnitF).passed = true)
    (hpend : (s.units.getD i dummyUnitF).pending = []) :
    fineStep S cfg s i true = s := by
  unfold fineStep
  rw [hdead]
  simp only [Bool.false_eq_true, if_false, hstop, hpass, hpend]
  simp

lemma fineStep_commit (S : Sampler) (cfg : Config) (s : RunStateF)
    (i : ℕ) (f : Frame) (rest : List Frame)
    (hdead : s.dead = false)
    (hstop : (s.units.getD i dummyUnitF).stopped = false)
    (hpass : (s.units.getD i dummyUnitF).passed = true)
    (hpend : (s.units.getD i dummyUnitF).pending = f :: rest) :
    fineStep S cfg s i true =
      { counter := s.counter + 2,
        finished := s.finished,
        dead := (processRetained S cfg
          (s.units.getD i dummyUnitF).dir f).2,
        retains := s.retains + 1,
        fs := (processRetained S cfg (s.units.getD i dummyUnitF).dir
          f).1.foldl applyWrite s.fs,
        units := s.units.set i
          ({ s.units.getD i dummyUnitF with
              pending := rest, prev := some f.labels,
              passed := false }) } := by
  unfold fineStep
  rw [hdead]
  simp only [Bool.false_eq_true, if_false, hstop, hpass, hpend]
  simp

lemma passed_count_set (l : List UnitStateF) :
    ∀ (j : ℕ) (x : UnitStateF), j < l.length →
      ((l.set j x).countP fun u => u.passed) +
          (if (l.getD j dummyUnitF).passed = true then 1 else 0) =
        (l.countP fun u => u.passed) +
          (if x.passed = true then 1 else 0) := by
  induction l with
  | nil => intro j x hj; cases hj
  | cons a as ih =>
    intro j x hj
    cases j with
    | zero =>
      simp only [List.set, List.getD_cons_zero, List.countP_cons]
      omega
    | succ j =>
      have hj' : j < as.length := by simpa using hj
      have := ih j x hj'
      simp only [List.set, List.countP_cons, List.getD_cons_succ]
      omega

lemma passed_count_set_keep (l : List UnitStateF) (j : ℕ)
    (x : UnitStateF) (hj : j < l.length)
    (hold : (l.getD j dummyUnitF).passed = false)
    (hnew : x.passed = false) :
    ((l.set j x).countP fun u => u.passed) =
      (l.countP fun u => u.passed) := by
  have h := passed_count_set l j x hj
  rw [hold, hnew] at h
  simpa using h

lemma passed_count_set_incr (l : List UnitStateF) (j : ℕ)
    (x : UnitStateF) (hj : j < l.length)
    (hold : (l.getD j dummyUnitF).passed = false)
    (hnew : x.passed = true) :
    ((l.set j x).countP fun u => u.passed) =
      (l.countP fun u => u.passed) + 1 := by
  have h := passed_count_set l j x hj
  rw [hold, hnew] at h
  simpa using h

lemma passed_count_set_decr (l : List UnitStateF) (j : ℕ)
    (x : UnitStateF) (hj : j < l.length)
    (hold : (l.getD j dummyUnitF).passed = true)
    (hnew : x.passed = false) :
    ((l.set j x).countP fun u => u.passed) + 1 =
      (l.countP fun u => u.passed) := by
  have h := passed_count_set l j x hj
  rw [hold, hnew] at h
  simpa using h

lemma fineStep_inv (S : Sampler) (cfg : Config) (L : ℕ)
    (s : RunStateF) (i : ℕ) (ph : Bool)
    (h1 : s.counter = 2 * s.retains)
    (h2 : s.counter + 2 * passedCount s ≤ cfg.maxFrameCount + 2 * L)
    (h3 : s.units.length = L) :
    (fineStep S cfg s i ph).counter =
        2 * (fineStep S cfg s i ph).retains ∧
      (fineStep S cfg s i ph).counter +
          2 * passedCount (fineStep S cfg s i ph) ≤
        cfg.maxFrameCount + 2 * L ∧
      (fineStep S cfg s i ph).units.length = L := by
  by_cases hdead : s.dead
  · rw [fineStep_dead S cfg s i ph hdead]; exact ⟨h1, h2, h3⟩
  have hdead' := eq_false_of_ne_true hdead
  by_cases hstop : (s.units.getD i dummyUnitF).stopped
  · rw [fineStep_stopped S cfg s i ph hstop]; exact ⟨h1, h2, h3⟩
  have hstop' := eq_false_of_ne_true hstop
  have hlt : i < s.units.length := getD_stopped_lt_F s.units i hstop'
  have h2' : s.counter +
      2 * (s.units.countP fun u => u.passed) ≤
      cfg.maxFrameCount + 2 * L := h2
  cases ph with
  | false =>
    by_cases hpass : (s.units.getD i dummyUnitF).passed
    · rw [fineStep_check_seen S cfg s i hdead' hstop' hpass]
      exact ⟨h1, h2, h3⟩
    have hpass' := eq_false_of_ne_true hpass
    cases hpend : (s.units.getD i dummyUnitF).pending with
    | nil =>
      rw [fineStep_check_nil S cfg s i hdead' hstop' hpass' hpend]
      exact ⟨h1, h2, h3⟩
    | cons f rest =>
      by_cases hfd : filterDecision cfg (s.units.getD i dummyUnitF).prev
          f.labels = .retain
      · by_cases hcnt : cfg.maxFrameCount ≤ s.counter
        · rw [fineStep_check_stop S cfg s i f rest hdead' hstop' hpass'
            hpend hfd hcnt]
          have hcs := passed_count_set_keep s.units i
            ({ s.units.getD i dummyUnitF with stopped := true }) hlt
            hpass' hpass'
          refine ⟨h1, ?_, ?_⟩
          · show s.counter + 2 * ((s.units.set i
              ({ s.units.getD i dummyUnitF with stopped := true })).countP
                fun u => u.passed) ≤ cfg.maxFrameCount + 2 * L
            omega
          · show (s.units.set i _).length = L
            rw [List.length_set]; exact h3
        · push_neg at hcnt
          rw [fineStep_check_pass S cfg s i f rest hdead' hstop' hpass'
            hpend hfd hcnt]
          have hcs := passed_count_set_incr s.units i
            ({ s.units.getD i dummyUnitF with passed := true }) hlt
            hpass' rfl
          have hle : ((s.units.set i
              ({ s.units.getD i dummyUnitF with passed := true })).countP
                fun u => u.passed) ≤ L := by
            have := List.countP_le_length
              (l := s.units.set i
                ({ s.units.getD i dummyUnitF with passed := true }))
              (p := fun u => u.passed)
            rw [List.length_set, h3] at this
            exact this
          refine ⟨h1, ?_, ?_⟩
          · show s.counter + 2 * ((s.units.set i
              ({ s.units.getD i dummyUnitF with passed := true })).countP
                fun u => u.passed) ≤ cfg.maxFrameCount + 2 * L
            omega
          · show (s.units.set i _).length = L
            rw [List.length_set]; exact h3
      · rw [fineStep_check_drop S cfg s i f rest hdead' hstop' hpass'
          hpend hfd]
        have hcs := passed_count_set_keep s.units i
          ({ s.units.getD i dummyUnitF with pending := rest }) hlt
          hpass' hpass'
        refine ⟨h1, ?_, ?_⟩
        · show s.counter + 2 * ((s.units.set i
            ({ s.units.getD i dummyUnitF with pending := rest })).countP
              fun u => u.passed) ≤ cfg.maxFrameCount + 2 * L
          omega
        · show (s.units.set i _).length = L
          rw [List.length_set]; exact h3
  | true =>
    by_cases hpass : (s.units.getD i dummyUnitF).passed
    · cases hpend : (s.units.getD i dummyUnitF).pending with
      | nil =>
        rw [fineStep_commit_nil S cfg s i hdead' hstop' hpass hpend]
        exact ⟨h1, h2, h3⟩
      | cons f rest =>
        rw [fineStep_commit S cfg s i f rest hdead' hstop' hpass hpend]
        have hcs := passed_count_set_decr s.units i
          ({ s.units.getD i dummyUnitF with
              pending := rest, prev := some f.labels,
              passed := false }) hlt hpass rfl
        refine ⟨?_, ?_, ?_⟩
        · show s.counter + 2 = 2 * (s.retains + 1)
          omega
        · show (s.counter + 2) + 2 * ((s.units.set i
            ({ s.units.getD i dummyUnitF with
                pending := rest, prev := some f.labels,
                passed := false })).countP
              fun u => u.passed) ≤ cfg.maxFrameCount + 2 * L
          omega
        · show (s.units.set i _).length = L
          rw [List.length_set]; exact h3
    · rw [fineStep_commit_idle S cfg s i hdead' hstop'
        (eq_false_of_ne_true hpass)]
      exact ⟨h1, h2, h3⟩

lemma fineRun_inv (S : Sampler) (cfg : Config) (units : List WorkUnit)
    (σ : List (ℕ × Bool)) (fs0 : FS) :
    (fineRun S cfg units σ fs0).counter =
        2 * (fineRun S cfg units σ fs0).retains ∧
      (fineRun S cfg units σ fs0).counter +
          2 * passedCount (fineRun S cfg units σ fs0) ≤
        cfg.maxFrameCount + 2 * units.length ∧
      (fineRun S cfg units σ fs0).units.length = units.length := by
  unfold fineRun
  refine foldl_invariant _
    (fun t : RunStateF => t.counter = 2 * t.retains ∧
      t.counter + 2 * passedCount t ≤
        cfg.maxFrameCount + 2 * units.length ∧
      t.units.length = units.length)
    (fun st p hq =>
      fineStep_inv S cfg units.length st p.1 p.2 hq.1 hq.2.1 hq.2.2)
    σ _ ⟨rfl, ?_, ?_⟩
  · have hpc : passedCount (initStateF fs0 units) = 0 := by
      unfold passedCount initStateF
      simp only [List.countP_map]
      exact List.countP_eq_zero.mpr (fun u _ => by simp [Function.comp])
    show (initStateF fs0 units).counter +
        2 * passedCount (initStateF fs0 units) ≤
      cfg.maxFrameCount + 2 * units.length
    rw [hpc]
    simp [initStateF]
  · show (units.map fun u =>
        (⟨u.dir, u.frames, none, false, false⟩ : UnitStateF)).length =
      units.length
    exact List.length_map _ _

/-! ## Claims -/

/-- C10 counterexample: the budget check of line 1111 and the
`frame_count += 2` of line 1115 are separate atomic operations, so two
workers can both pass the check before either increment lands.  With
`max_frame_count = 2`, `no_flip = true` and two single-frame work
units, the schedule check(0), check(1), commit(0), commit(1) retains 2
frames, exceeding the claimed bound `ceil(max_frame_count / 2) = 1`. -/
theorem no_flip_frame_accounting_counterexample :
    ¬ ((fineRun ⟨fun s => (0, s), fun _ s => (0, s), fun _ _ _ _ _ => 0⟩
        ⟨2, false, 0, 0, true, 0, 2, id, []⟩
        [⟨5, [⟨0, 0, [[1]], [[FVal.fin 1]], none⟩]⟩,
         ⟨6, [⟨0, 1, [[1]], [[FVal.fin 1]], none⟩]⟩]
        [(0, false), (1, false), (0, true), (1, true)]
        (fun _ => none)).retains ≤
      ((⟨2, false, 0, 0, true, 0, 2, id, []⟩ : Config).maxFrameCount + 1)
        / 2) := by
  decide

/-- C10 (amended): the commit transition of a retained frame — the
`frame_count += 2` of line 1115 together with the frame's processing
and writes — increments the shared counter by exactly 2 and the
retained count by 1 regardless of the `no_flip` flag; and, because a
worker that passed the budget check of line 1111 but has not yet
incremented can contribute one extra retained frame, a run with
mirroring disabled retains at most `ceil(max_frame_count / 2)` plus the
number of work units input frames.  (The claim's bound without that
per-worker slack is refuted by the counterexample schedule.) -/
theorem fine_frame_accounting (S : Sampler) (cfg : Config) :
    (∀ (b : Bool) (s : RunStateF) (i : ℕ) (f : Frame) rest,
      s.dead = false →
      (s.units.getD i dummyUnitF).stopped = false →
      (s.units.getD i dummyUnitF).passed = true →
      (s.units.getD i dummyUnitF).pending = f :: rest →
      (fineStep S { cfg with noFlip := b } s i true).counter =
          s.counter + 2 ∧
        (fineStep S { cfg with noFlip := b } s i true).retains =
          s.retains + 1) ∧
    (∀ (units : List WorkUnit) (σ : List (ℕ × Bool)) (fs0 : FS),
      cfg.noFlip = true →
      (fineRun S cfg units σ fs0).retains ≤
        (cfg.maxFrameCount + 1) / 2 + units.length) := by
  constructor
  · intro b s i f rest hd hstop hpass hpend
    rw [fineStep_commit S { cfg with noFlip := b } s i f rest hd hstop
      hpass hpend]
    exact ⟨rfl, rfl⟩
  · intro units σ fs0 _
    have h := fineRun_inv S cfg units σ fs0
    omega

/-- C10 witness: a concrete commit micro-step (with flipping enabled)
increments the counter by 2 and the retained count by 1, and a concrete
no-flip fine-grained run satisfies the amended bound. -/
theorem fine_frame_accounting_witness :
    (fineStep ⟨fun s => (0, s), fun _ s => (0, s), fun _ _ _ _ _ => 0⟩
        { (⟨2, false, 0, 0, true, 0, 10, id, []⟩ : Config) with
            noFlip := false }
        ⟨0, false, false, 0, fun _ => none,
          [⟨5, [⟨0, 0, [[1]], [[FVal.fin 1]], none⟩], none, false,
            true⟩]⟩
        0 true).counter = 0 + 2 ∧
    (fineRun ⟨fun s => (0, s), fun _ s => (0, s), fun _ _ _ _ _ => 0⟩
        ⟨2, false, 0, 0, true, 0, 10, id, []⟩
        [⟨5, [⟨0, 0, [[1]], [[FVal.fin 1]], none⟩]⟩]
        [(0, false), (0, true)] (fun _ => none)).retains ≤
      (10 + 1) / 2 + 1 :=
  ⟨((fine_frame_accounting ⟨fun s => (0, s), fun _ s => (0, s),
      fun _ _ _ _ _ => 0⟩ ⟨2, false, 0, 0, true, 0, 10, id, []⟩).1 false
      ⟨0, false, false, 0, fun _ => none,
        [⟨5, [⟨0, 0, [[1]], [[FVal.fin 1]], none⟩], none, false,
          true⟩]⟩
      0 ⟨0, 0, [[1]], [[FVal.fin 1]], none⟩ [] rfl rfl rfl rfl).1,
   (fine_frame_accounting ⟨fun s => (0, s), fun _ s => (0, s),
      fun _ _ _ _ _ => 0⟩ ⟨2, false, 0, 0, true, 0, 10, id, []⟩).2
      [⟨5, [⟨0, 0, [[1]], [[FVal.fin 1]], none⟩]⟩]
      [(0, false), (0, true)] (fun _ => none) rfl⟩

lemma foldl_applyWrite_preserve_image (ws : List Write) :
    ∀ (fs : FS) (k : FileKey),
      (∀ w ∈ ws, w.overwrite = true → w.key.kind = FileKind.jsonK) →
      k.kind ≠ FileKind.jsonK →
      (fs k).isSome = true →
      ws.foldl applyWrite fs k = fs k := by
  induction ws with
  | nil => intro fs k _ _ _; rfl
  | cons w ws ih =>
    intro fs k hks hkind hs
    have hw : applyWrite fs w k = fs k := by
      by_cases hov : w.overwrite = true
      · refine applyWrite_at_ne fs w k fun he => hkind ?_
        rw [he]
        exact hks w (List.mem_cons_self w ws) hov
      · by_cases hk : k = w.key
        · subst hk
          unfold applyWrite
          rw [if_neg hov]
          cases hc : fs w.key with
          | some v => exact hc
          | none => rw [hc] at hs; cases hs
        · exact applyWrite_at_ne fs w k hk
    rw [List.foldl_cons,
      ih (applyWrite fs w) k
        (fun w' hw' => hks w' (List.mem_cons_of_mem w hw'))
        hkind (by rw [hw]; exact hs),
      hw]

/-- C7 counterexample: with a single retained frame whose JSON sidecar
is present and a destination tree already holding that sidecar's file,
the run overwrites it — the sidecar copy (`write_file` /
`json_serialize_to_file_pretty`) performs no existence check, so the
claim that the output writer never writes to a pre-existing destination
file is false. -/
theorem no_overwrite_counterexample :
    (((fun k => if k = (⟨5, 0, false, FileKind.jsonK⟩ : FileKey) then
        some (FileVal.js [(3, 4)]) else none) : FS)
      ⟨5, 0, false, FileKind.jsonK⟩).isSome = true ∧
    (run ⟨fun s => (0, s), fun _ s => (0, s), fun _ _ _ _ _ => 0⟩
        ⟨2, false, 0, 0, true, 0, 10, id, []⟩
        [⟨5, [⟨0, 0, [[1]], [[FVal.fin 1]], some [(1, 2)]⟩]⟩] [0]
        (fun k => if k = (⟨5, 0, false, FileKind.jsonK⟩ : FileKey) then
          some (FileVal.js [(3, 4)]) else none)).fs
      ⟨5, 0, false, FileKind.jsonK⟩ ≠
    ((fun k => if k = (⟨5, 0, false, FileKind.jsonK⟩ : FileKey) then
        some (FileVal.js [(3, 4)]) else none) : FS)
      ⟨5, 0, false, FileKind.jsonK⟩ := by
  constructor
  · decide
  · decide

/-- C7 (amended): the label-PNG and depth-EXR/PFM writers check whether
the destination exists and skip the write if so, so re-running against
a directory already containing some outputs writes nothing to any
pre-existing label or depth file; the JSON sidecar copies (and the
top-level `meta.json`) are written unconditionally, overwriting
pre-existing files. -/
theorem image_outputs_idempotent (S : Sampler) (cfg : Config)
    (units : List WorkUnit) (σ : List ℕ) (fs0 : FS) :
    ∀ k : FileKey, k.kind ≠ FileKind.jsonK →
      (fs0 k).isSome = true →
      (run S cfg units σ fs0).fs k = fs0 k := by
  have h := foldl_step_inv S cfg
    (fun t => ∀ k : FileKey, k.kind ≠ FileKind.jsonK →
      (fs0 k).isSome = true → t.fs k = fs0 k)
    (fun s i hP => by
      refine step_rec S cfg s i
        (fun t => ∀ k : FileKey, k.kind ≠ FileKind.jsonK →
          (fs0 k).isSome = true → t.fs k = fs0 k) (fun _ => hP) ?_ ?_ ?_
      · intro _ _ _ _ _ _; exact hP
      · intro _ _ _ _ _ _ _; exact hP
      · intro f rest _ _ _ _ _
        intro k hk hs
        show ((processRetained S cfg (s.units.getD i dummyUnit).dir
          f).1.foldl applyWrite s.fs) k = fs0 k
        rw [foldl_applyWrite_preserve_image _ s.fs k
          (fun w hw hov =>
            (processRetained_shape S cfg _ f w hw).2.2 hov)
          hk (by rw [hP k hk hs]; exact hs)]
        exact hP k hk hs)
    σ (initState fs0 units) (fun _ _ _ => rfl)
  exact h

/-- C7 witness: a pre-existing label file survives a re-run over it
untouched. -/
theorem image_outputs_idempotent_witness :
    (run ⟨fun s => (0, s), fun _ s => (0, s), fun _ _ _ _ _ => 0⟩
        ⟨2, false, 0, 0, true, 0, 10, id, []⟩
        [⟨5, [⟨0, 0, [[1]], [[FVal.fin 1]], none⟩]⟩] [0]
        (fun k => if k = (⟨5, 0, false, FileKind.labelsK⟩ : FileKey) then
          some (FileVal.lab [[9]]) else none)).fs
      ⟨5, 0, false, FileKind.labelsK⟩ =
    ((fun k => if k = (⟨5, 0, false, FileKind.labelsK⟩ : FileKey) then
        some (FileVal.lab [[9]]) else none) : FS)
      ⟨5, 0, false, FileKind.labelsK⟩ :=
  image_outputs_idempotent ⟨fun s => (0, s), fun _ s => (0, s),
      fun _ _ _ _ _ => 0⟩ ⟨2, false, 0, 0, true, 0, 10, id, []⟩
    [⟨5, [⟨0, 0, [[1]], [[FVal.fin 1]], none⟩]⟩] [0]
    (fun k => if k = (⟨5, 0, false, FileKind.labelsK⟩ : FileKey) then
      some (FileVal.lab [[9]]) else none)
    ⟨5, 0, false, FileKind.labelsK⟩ (by decide) (by decide)

/-- C4 counterexample: with two single-frame work units and
`max_frame_count = 2`, the schedule that runs unit 0 first writes unit
0's label file and budget-stops unit 1, while the schedule that runs
unit 1 first leaves unit 0's label file unwritten — so two runs of the
same seed, configuration and input tree (both with valid schedules,
e.g. two workers racing) need not produce identical output files when
the budget truncates the run. -/
theorem determinism_claim_counterexample :
    (run ⟨fun s => (0, s), fun _ s => (0, s), fun _ _ _ _ _ => 0⟩
        ⟨2, false, 0, 0, true, 0, 2, id, []⟩
        [⟨1, [⟨0, 0, [[1]], [[FVal.fin 1]], none⟩]⟩,
         ⟨2, [⟨1, 0, [[1]], [[FVal.fin 1]], none⟩]⟩] [0, 1]
        (fun _ => none)).fs ⟨1, 0, false, FileKind.labelsK⟩ ≠
    (run ⟨fun s => (0, s), fun _ s => (0, s), fun _ _ _ _ _ => 0⟩
        ⟨2, false, 0, 0, true, 0, 2, id, []⟩
        [⟨1, [⟨0, 0, [[1]], [[FVal.fin 1]], none⟩]⟩,
         ⟨2, [⟨1, 0, [[1]], [[FVal.fin 1]], none⟩]⟩] [1, 0]
        (fun _ => none)).fs ⟨1, 0, false, FileKind.labelsK⟩ := by
  decide

/-- C4 (amended): two runs of the pipeline with identical seed,
configuration and input tree, under any two schedules in which every
unit is processed sequentially (any worker count), produce identical
output files — provided the directories of the work units are distinct
(as the scanner guarantees), the frame budget cannot truncate the run
(`max_frame_count ≥ 2 × total input frames`), no sanity abort occurs,
and both runs start from an empty output tree and run to completion.
When the budget truncates the run, the set of written files depends on
the schedule. -/
theorem run_deterministic (S : Sampler) (cfg : Config)
    (units : List WorkUnit) (σ1 σ2 : List ℕ)
    (hdirs : (units.map WorkUnit.dir).Nodup)
    (hmax : 2 * totalFrames units ≤ cfg.maxFrameCount)
    (hok : ∀ u ∈ units, ∀ f ∈ u.frames,
      (processRetained S cfg u.dir f).2 = false)
    (hc1 : Complete units σ1) (hc2 : Complete units σ2) :
    ∀ k, (run S cfg units σ1 (fun _ => none)).fs k =
      (run S cfg units σ2 (fun _ => none)).fs k := by
  have main : ∀ σ : List ℕ, Complete units σ →
      (∀ k : FileKey,
        (∀ i, i < units.length →
          k.dir ≠ (units.getD i ⟨0, []⟩).dir) →
        (run S cfg units σ (fun _ => none)).fs k = none) ∧
      (∀ i, i < units.length → ∀ k : FileKey,
        k.dir = (units.getD i ⟨0, []⟩).dir →
        (run S cfg units σ (fun _ => none)).fs k =
          (unitRun S cfg (units.getD i ⟨0, []⟩).dir
            (units.getD i ⟨0, []⟩).frames none).foldl applyWrite
            (fun _ => none) k) := by
    intro σ hcomp
    obtain ⟨hI, hpend⟩ := run_RInv_pending S cfg units hdirs hmax hok σ
      (initState (fun _ => none) units) (initState_RInv S cfg units)
    obtain ⟨hdead, hlen, hcnt, W, hunits, hfsnone, hfsunit⟩ := hI
    have hWfull : ∀ i, i < units.length →
        W i = unitRun S cfg (units.getD i ⟨0, []⟩).dir
          (units.getD i ⟨0, []⟩).frames none := by
      intro i hi
      have hp := hpend i hi
      have hinit : ((initState (fun _ => none) units).units.getD i
          dummyUnit).pending = (units.getD i ⟨0, []⟩).frames := by
        show (((units.map fun u =>
          (⟨u.dir, u.frames, none, false⟩ : UnitState)).getD i
            dummyUnit)).pending = _
        rw [getD_map_of_lt units
          (fun u => (⟨u.dir, u.frames, none, false⟩ : UnitState)) i hi
          ⟨0, []⟩ dummyUnit]
      have hcount := hcomp i hi
      rw [hinit] at hp
      have hnil : ((σ.foldl (step S cfg)
          (initState (fun _ => none) units)).units.getD i
          dummyUnit).pending = [] :=
        List.length_eq_zero.mp (by omega)
      have hrun := (hunits i hi).2.2.2.1
      rw [hnil] at hrun
      have : unitRun S cfg (units.getD i ⟨0, []⟩).dir
          (units.getD i ⟨0, []⟩).frames none = W i ++ [] := hrun
      rw [List.append_nil] at this
      exact this.symm
    refine ⟨fun k hk => hfsnone k hk, fun i hi k hk => ?_⟩
    show (σ.foldl (step S cfg) (initState (fun _ => none) units)).fs k = _
    rw [hfsunit i hi k hk, hWfull i hi]
  intro k
  by_cases hex : ∃ i, i < units.length ∧
      k.dir = (units.getD i ⟨0, []⟩).dir
  · obtain ⟨i, hi, hk⟩ := hex
    rw [(main σ1 hc1).2 i hi k hk, (main σ2 hc2).2 i hi k hk]
  · push_neg at hex
    rw [(main σ1 hc1).1 k hex, (main σ2 hc2).1 k hex]

/-- C4 witness: a one-unit input processed under two different complete
schedules yields the same content for the written label file. -/
theorem run_deterministic_witness :
    (run ⟨fun s => (0, s), fun _ s => (0, s), fun _ _ _ _ _ => 0⟩
        ⟨2, false, 0, 0, true, 0, 9, id, []⟩
        [⟨1, [⟨0, 0, [[1]], [[FVal.fin 1]], none⟩]⟩] [0]
        (fun _ => none)).fs ⟨1, 0, false, FileKind.labelsK⟩ =
    (run ⟨fun s => (0, s), fun _ s => (0, s), fun _ _ _ _ _ => 0⟩
        ⟨2, false, 0, 0, true, 0, 9, id, []⟩
        [⟨1, [⟨0, 0, [[1]], [[FVal.fin 1]], none⟩]⟩] [0, 0]
        (fun _ => none)).fs ⟨1, 0, false, FileKind.labelsK⟩ :=
  run_deterministic ⟨fun s => (0, s), fun _ s => (0, s),
      fun _ _ _ _ _ => 0⟩ ⟨2, false, 0, 0, true, 0, 9, id, []⟩
    [⟨1, [⟨0, 0, [[1]], [[FVal.fin 1]], none⟩]⟩] [0] [0, 0]
    (by decide) (by decide)
    (by intro u hu f hf
        simp only [List.mem_singleton] at hu
        subst hu
        simp only [List.mem_singleton] at hf
        subst hf
        decide)
    (by intro i hi
        simp only [List.length_singleton] at hi
        interval_cases i
        decide)
    (by intro i hi
        simp only [List.length_singleton] at hi
        interval_cases i
        decide)
    ⟨1, 0, false, FileKind.labelsK⟩

/-- C2: for every work unit the frame filter retains the first frame
unconditionally; every subsequent frame is judged on its
non-background pixel count and its label difference against the
previous retained frame, in the order: spurious empty, too small, too
similar, retain; and the previous-frame reference is updated only on
retain. -/
theorem frame_filter_spec (cfg : Config) :
    (∀ prev labels,
      filterDecision cfg prev labels = filterDecisionSpec cfg prev labels) ∧
    (∀ S s i (f : Frame) rest,
      s.dead = false →
      (s.units.getD i dummyUnit).stopped = false →
      (s.units.getD i dummyUnit).pending = f :: rest →
      (filterDecision cfg (s.units.getD i dummyUnit).prev f.labels ≠
          .retain →
        ((step S cfg s i).units.getD i dummyUnit).prev =
          (s.units.getD i dummyUnit).prev) ∧
      (filterDecision cfg (s.units.getD i dummyUnit).prev f.labels =
          .retain →
        s.counter < cfg.maxFrameCount →
        ((step S cfg s i).units.getD i dummyUnit).prev = some f.labels)) := by
  constructor
  · intro prev labels
    cases prev with
    | none => rfl
    | some p =>
      have hc : (n_different_px labels p : ℚ) * 100 / (n_body_px labels : ℚ) =
          100 * (n_different_px labels p : ℚ) / (n_body_px labels : ℚ) := by
        ring
      simp only [filterDecision, filterDecisionSpec, frame_diff_differ]
      simp only [hc]
      split_ifs <;> simp_all
  · intro S s i f rest hdead hstop hpend
    have hi : i < s.units.length := getD_stopped_lt s i hstop
    constructor
    · intro hret
      unfold step
      rw [hdead]
      simp only [Bool.false_eq_true, if_false, hstop, hpend]
      cases hfd : filterDecision cfg (s.units.getD i dummyUnit).prev
          f.labels with
      | retain => exact absurd hfd hret
      | dropEmpty =>
        simp [List.getElem?_set_self', List.getElem?_eq_getElem hi]
      | dropTooSmall =>
        simp [List.getElem?_set_self', List.getElem?_eq_getElem hi]
      | dropTooSimilar =>
        simp [List.getElem?_set_self', List.getElem?_eq_getElem hi]
    · intro hfd hcnt
      unfold step
      rw [hdead]
      simp only [Bool.false_eq_true, if_false, hstop, hpend, hfd]
      rw [if_neg (by simpa using hcnt)]
      simp [List.getElem?_set_self', List.getElem?_eq_getElem hi]

/-- C2 witness: a concrete drop ("too similar": one of four body pixels
differs, below the 50 percent threshold) leaves the previous-frame
reference unchanged, and a concrete first frame is retained. -/
theorem frame_filter_spec_witness :
    filterDecision ⟨1, false, 2, 50, true, 0, 10, id, []⟩ (some [[1, 1], [1, 1]])
        [[1, 1], [1, 2]] =
      filterDecisionSpec ⟨1, false, 2, 50, true, 0, 10, id, []⟩
        (some [[1, 1], [1, 1]]) [[1, 1], [1, 2]] ∧
    filterDecision ⟨1, false, 2, 50, true, 0, 10, id, []⟩ none [[1, 1]] =
      filterDecisionSpec ⟨1, false, 2, 50, true, 0, 10, id, []⟩ none
        [[1, 1]] :=
  ⟨(frame_filter_spec ⟨1, false, 2, 50, true, 0, 10, id, []⟩).1
      (some [[1, 1], [1, 1]]) [[1, 1], [1, 2]],
   (frame_filter_spec ⟨1, false, 2, 50, true, 0, 10, id, []⟩).1 none
      [[1, 1]]⟩

lemma sanity_px (cfg : Config) (labels : Grid ℕ) (depth : Grid FVal)
    (hs : sanity_check_frame cfg labels depth = true) (y x : ℕ)
    (hy : y < labels.length) (hx : x < (labels.getD y []).length) :
    px_ok cfg (gget labels y x 0) (gget depth y x (.fin 0)) = true := by
  unfold sanity_check_frame at hs
  have h1 := List.all_eq_true.mp hs y (List.mem_range.mpr hy)
  exact List.all_eq_true.mp h1 x (List.mem_range.mpr hx)

lemma jsonWrites_val (cfg : Config) (dir : ℕ) (f : Frame) :
    ∀ w ∈ jsonWrites cfg dir f, ∃ b, w.val = FileVal.js b := by
  intro w hw
  unfold jsonWrites at hw
  cases hj : f.json with
  | none => simp only [hj] at hw; cases hw
  | some bones =>
    simp only [hj, List.mem_cons] at hw
    rcases hw with hw | hw
    · exact ⟨bones, by rw [hw]⟩
    · by_cases hnf : cfg.noFlip
      · rw [if_pos hnf] at hw; cases hw
      · rw [if_neg hnf] at hw
        simp only [List.mem_singleton] at hw
        exact ⟨bones.map fun b => (-b.1, -b.2), by rw [hw]⟩

lemma px_ok_fin_le (cfg : Config) (label : ℕ) (d : FVal)
    (hpx : px_ok cfg label d = true) :
    ∃ q, d = .fin q ∧ q ≤ cfg.bg := by
  cases d with
  | nan =>
    unfold px_ok at hpx
    simp [FVal.isNaNB, FVal.isInfB] at hpx
  | inf b =>
    unfold px_ok at hpx
    simp [FVal.isNaNB, FVal.isInfB] at hpx
  | fin q =>
    unfold px_ok at hpx
    split_ifs at hpx with h1 h2 h3 h4
    have hq : ¬ cfg.bg < q := by
      intro hlt
      exact h2 (by simp [FVal.gtQ, hlt])
    exact ⟨q, rfl, le_of_not_lt hq⟩

lemma sanity_pixel_bound (cfg : Config) (labels : Grid ℕ)
    (depth : Grid FVal)
    (hs : sanity_check_frame cfg labels depth = true)
    (hsh : shapeEq depth labels) (y x : ℕ)
    (hy : y < depth.length) (hx : x < (depth.getD y []).length) :
    ∃ q, gget depth y x (.fin 0) = .fin q ∧ q ≤ cfg.bg := by
  have hy' : y < labels.length := by rw [← hsh.1]; exact hy
  have hx' : x < (labels.getD y []).length := by
    rw [← hsh.2 y]; exact hx
  exact px_ok_fin_le cfg _ _ (sanity_px cfg labels depth hs y x hy' hx')

/-- Every depth image among `processRetained`'s writes passed
`sanity_check_frame` against a label image of its own shape: the label
and depth buffers share their dimensions through noise, clamp and flip,
so the per-pixel guard covers every pixel of the written grid. -/
lemma processRetained_dep (S : Sampler) (cfg : Config) (dir : ℕ)
    (f : Frame) (hsh : shapeEq f.depth f.labels) (w : Write)
    (hw : w ∈ (processRetained S cfg dir f).1) (g : Grid FVal)
    (hval : w.val = FileVal.dep g) :
    ∃ nl, sanity_check_frame cfg nl g = true ∧ shapeEq g nl := by
  have hUd : shapeEq (unflippedNoisy S cfg f).2.1 f.depth :=
    (frame_add_noise_shape S cfg (rngBeforeUnflippedNoise cfg f)
      f.labels f.depth (2 * f.frameNo)).2
  have hUl : shapeEq (unflippedNoisy S cfg f).1 f.labels :=
    (frame_add_noise_shape S cfg (rngBeforeUnflippedNoise cfg f)
      f.labels f.depth (2 * f.frameNo)).1
  have hFd : shapeEq (flippedNoisy S cfg f).2.1 f.depth :=
    shapeEq_trans
      (frame_add_noise_shape S cfg (rngBeforeFlippedNoise S cfg f)
        (flip_frame_labels cfg.swap f.labels) (flip_frame_depth f.depth)
        (2 * f.frameNo + 1)).2
      (flip_frame_depth_shape f.depth)
  have hFl : shapeEq (flippedNoisy S cfg f).1 f.labels :=
    shapeEq_trans
      (frame_add_noise_shape S cfg (rngBeforeFlippedNoise S cfg f)
        (flip_frame_labels cfg.swap f.labels) (flip_frame_depth f.depth)
        (2 * f.frameNo + 1)).1
      (flip_frame_labels_shape cfg.swap f.labels)
  have hgU : shapeEq
      (clamp_depth cfg (unflippedNoisy S cfg f).1
        (unflippedNoisy S cfg f).2.1) (unflippedNoisy S cfg f).1 :=
    shapeEq_trans (clamp_depth_shape cfg _ _)
      (shapeEq_trans hUd (shapeEq_trans hsh (shapeEq_symm hUl)))
  have hgF : shapeEq
      (clamp_depth cfg (flippedNoisy S cfg f).1
        (flippedNoisy S cfg f).2.1) (flippedNoisy S cfg f).1 :=
    shapeEq_trans (clamp_depth_shape cfg _ _)
      (shapeEq_trans hFd (shapeEq_trans hsh (shapeEq_symm hFl)))
  unfold processRetained at hw
  by_cases h1 : sanity_check_frame cfg
      ((unflippedNoisy S cfg f).1)
      (clamp_depth cfg (unflippedNoisy S cfg f).1
        (unflippedNoisy S cfg f).2.1) = true
  · rw [if_pos h1] at hw
    by_cases hnf : cfg.noFlip
    · rw [if_pos hnf] at hw
      simp only [List.mem_append, List.mem_cons,
        List.not_mem_nil, or_false] at hw
      rcases hw with (hw | hw) | hw
      · subst hw; cases hval
      · subst hw
        injection hval with hg
        exact ⟨(unflippedNoisy S cfg f).1,
          by rw [← hg]; exact h1, hg ▸ hgU⟩
      · obtain ⟨b, hb⟩ := jsonWrites_val cfg dir f w hw
        rw [hb] at hval; cases hval
    · rw [if_neg hnf] at hw
      by_cases h2 : sanity_check_frame cfg
          ((flippedNoisy S cfg f).1)
          (clamp_depth cfg (flippedNoisy S cfg f).1
            (flippedNoisy S cfg f).2.1) = true
      · rw [if_pos h2] at hw
        simp only [List.append_assoc, List.mem_append, List.mem_cons,
          List.not_mem_nil, or_false] at hw
        rcases hw with (hw | hw) | ((hw | hw) | hw)
        · subst hw; cases hval
        · subst hw
          injection hval with hg
          exact ⟨(unflippedNoisy S cfg f).1,
            by rw [← hg]; exact h1, hg ▸ hgU⟩
        · subst hw; cases hval
        · subst hw
          injection hval with hg
          exact ⟨(flippedNoisy S cfg f).1,
            by rw [← hg]; exact h2, hg ▸ hgF⟩
        · obtain ⟨b, hb⟩ := jsonWrites_val cfg dir f w hw
          rw [hb] at hval; cases hval
      · rw [if_neg h2] at hw
        simp only [List.mem_cons, List.not_mem_nil, or_false] at hw
        rcases hw with hw | hw
        · subst hw; cases hval
        · subst hw
          injection hval with hg
          exact ⟨(unflippedNoisy S cfg f).1,
            by rw [← hg]; exact h1, hg ▸ hgU⟩
  · rw [if_neg h1] at hw
    cases hw

/-- C1: after the clamp step, the sanity guard validates every pixel of
the noised frame: the depth value is finite (not NaN or Inf) and never
exceeds `background_depth_m`; when `bg_far_clamp_mode` is false every
background-labelled pixel's depth exactly equals `background_depth_m`;
and no non-background pixel's depth exactly equals
`background_depth_m`.  A violation aborts the whole process before the
frame is saved: when the unflipped variant fails the guard,
`processRetained` performs no writes at all and reports the fatal flag.
Consequently (for a frame whose depth and label buffers share their
dimensions, as loaded frames do) every depth image handed to the output
writer passed the guard, and every pixel of it is finite and at most
`background_depth_m`. -/
theorem sanity_guard_spec (cfg : Config) (labels : Grid ℕ)
    (depth : Grid FVal) :
    (sanity_check_frame cfg labels depth = true →
      ∀ y x, y < labels.length → x < (labels.getD y []).length →
        (∃ q, gget depth y x (.fin 0) = .fin q ∧ q ≤ cfg.bg) ∧
        (cfg.bgFarClampMode = false → gget labels y x 0 = BACKGROUND_ID →
          gget depth y x (.fin 0) = .fin cfg.bg) ∧
        (gget labels y x 0 ≠ BACKGROUND_ID →
          gget depth y x (.fin 0) ≠ .fin cfg.bg)) ∧
    (∀ S dir f, shapeEq f.depth f.labels →
      ∀ w ∈ (processRetained S cfg dir f).1, ∀ g, w.val = .dep g →
        ∀ y x, y < g.length → x < (g.getD y []).length →
          ∃ q, gget g y x (.fin 0) = .fin q ∧ q ≤ cfg.bg) ∧
    (∀ S dir f,
      sanity_check_frame cfg (unflippedNoisy S cfg f).1
        (clamp_depth cfg (unflippedNoisy S cfg f).1
          (unflippedNoisy S cfg f).2.1) = false →
      (processRetained S cfg dir f).1 = [] ∧
        (processRetained S cfg dir f).2 = true) := by
  refine ⟨?_, ?_, ?_⟩
  · intro hs y x hy hx
    have hpx := sanity_px cfg labels depth hs y x hy hx
    cases hd : gget depth y x (.fin 0) with
    | nan =>
      rw [hd] at hpx
      unfold px_ok at hpx
      simp [FVal.isNaNB, FVal.isInfB] at hpx
    | inf b =>
      rw [hd] at hpx
      unfold px_ok at hpx
      simp [FVal.isNaNB, FVal.isInfB] at hpx
    | fin q =>
      rw [hd] at hpx
      unfold px_ok at hpx
      split_ifs at hpx with h1 h2 h3 h4
      have hq : ¬ cfg.bg < q := by
        intro hlt
        exact h2 (by simp [FVal.gtQ, hlt])
      refine ⟨⟨q, rfl, le_of_not_lt hq⟩, ?_, ?_⟩
      · intro hmode hlab
        have he : q = cfg.bg := by
          by_contra he
          exact h3 (by simp [hmode, hlab, BACKGROUND_ID, FVal.eqQ, he])
        rw [he]
      · intro hlab heq
        injection heq with he
        refine h4 ?_
        simp only [BACKGROUND_ID, FVal.eqQ, he, decide_eq_true_eq,
          Bool.and_eq_true, Bool.not_eq_true', beq_eq_false_iff_ne,
          ne_eq]
        exact ⟨fun hh => hlab (by simpa [BACKGROUND_ID] using hh), trivial⟩
  · intro S dir f hsh w hw g hval y x hy hx
    obtain ⟨nl, hchk, hgnl⟩ :=
      processRetained_dep S cfg dir f hsh w hw g hval
    exact sanity_pixel_bound cfg nl g hchk hgnl y x hy hx
  · intro S dir f h
    unfold processRetained
    rw [if_neg (by rw [h]; exact Bool.false_ne_true)]
    exact ⟨rfl, rfl⟩

/-- C1 witness: a concrete frame passes the guard and its pixel is
finite and below `background_depth_m`; the depth image written for it
has that pixel bound; and a frame whose depth pixel is NaN fails the
guard, so nothing is written and the fatal flag is set. -/
theorem sanity_guard_spec_witness :
    (∃ q, gget [[FVal.fin 1]] 0 0 (.fin 0) = FVal.fin q ∧
      q ≤ (2 : ℚ)) ∧
    (∃ q, gget [[FVal.fin 1]] 0 0 (.fin 0) = FVal.fin q ∧
      q ≤ (2 : ℚ)) ∧
    (processRetained
        ⟨fun s => (0, s), fun _ s => (0, s), fun _ _ _ _ _ => 0⟩
        ⟨2, false, 0, 0, true, 0, 5, id, []⟩ 0
        ⟨0, 0, [[1]], [[FVal.nan]], none⟩).1 = [] :=
  ⟨((sanity_guard_spec ⟨2, false, 0, 0, true, 0, 5, id, []⟩ [[1]]
      [[FVal.fin 1]]).1 (by decide) 0 0 (by decide) (by decide)).1,
   (sanity_guard_spec ⟨2, false, 0, 0, true, 0, 5, id, []⟩ [[1]]
      [[FVal.fin 1]]).2.1 ⟨fun s => (0, s), fun _ s => (0, s),
        fun _ _ _ _ _ => 0⟩ 0 ⟨0, 0, [[1]], [[FVal.fin 1]], none⟩
      ⟨rfl, fun y => by cases y <;> rfl⟩
      ⟨⟨0, 0, false, .depthK⟩, .dep [[FVal.fin 1]], false⟩
      (by decide) [[FVal.fin 1]] rfl 0 0 (by decide) (by decide),
   ((sanity_guard_spec ⟨2, false, 0, 0, true, 0, 5, id, []⟩ [[1]]
      [[FVal.fin 1]]).2.2 ⟨fun s => (0, s), fun _ s => (0, s),
        fun _ _ _ _ _ => 0⟩ 0 ⟨0, 0, [[1]], [[FVal.nan]], none⟩
      (by decide)).1⟩

/-- C5: the depth-clamp step, applied after noise, treats every
background-labelled pixel as follows: when `bg_far_clamp_mode` is true,
the pixel's depth is set to `background_depth_m` only if it currently
exceeds `background_depth_m` (nearer values are left untouched); when
`bg_far_clamp_mode` is false, the pixel's depth is unconditionally
overwritten with `background_depth_m`.  (Non-background pixels are
untouched.) -/
theorem clamp_depth_background_spec (cfg : Config) (labels : Grid ℕ)
    (depth : Grid FVal) (y x : ℕ) (hy : y < depth.length)
    (hx : x < (depth.getD y []).length) :
    gget (clamp_depth cfg labels depth) y x (.fin 0) =
      if gget labels y x 0 = BACKGROUND_ID then
        if cfg.bgFarClampMode then
          if (gget depth y x (.fin 0)).gtQ cfg.bg then FVal.fin cfg.bg
          else gget depth y x (.fin 0)
        else FVal.fin cfg.bg
      else gget depth y x (.fin 0) := by
  unfold clamp_depth
  rw [gget_mapIdx2 depth _ y x hy hx (.fin 0)]

/-- C5 witness: a background pixel below the far-clamp threshold is
left untouched in far-clamp mode. -/
theorem clamp_depth_background_spec_witness :
    gget (clamp_depth
        ⟨1, true, 0, 0, true, 0, 0, id, []⟩ [[0]] [[FVal.fin 2]])
      0 0 (.fin 0) =
      if gget [[0]] 0 0 0 = BACKGROUND_ID then
        if true then
          if (gget [[FVal.fin 2]] 0 0 (.fin 0)).gtQ 1 then FVal.fin 1
          else gget [[FVal.fin 2]] 0 0 (.fin 0)
        else FVal.fin 1
      else gget [[FVal.fin 2]] 0 0 (.fin 0) :=
  clamp_depth_background_spec ⟨1, true, 0, 0, true, 0, 0, id, []⟩
    [[0]] [[FVal.fin 2]] 0 0 (by decide) (by decide)

/-- C3 counterexample: with one configured Gaussian op, a sampler whose
draws advance the engine state, seed 0 and a 1×2 frame numbered 0, the
engine state in which the mirrored variant's noise ops run is the state
left by the unflipped variant's two draws, not a fresh seed of
`global_seed + output_frame_no = 1`; so the claim that the generator is
reseeded with `global_seed + output_frame_no` before any op of the
mirrored variant is false. -/
theorem reseed_claim_counterexample :
    ¬ (rngBeforeFlippedNoise
        ⟨fun s => (0, s), fun _ s => (0, s + 1), fun _ _ _ _ _ => 0⟩
        ⟨1000, false, 0, 0, false, 0, 10, id, [.normal 1]⟩
        ⟨0, 0, [[1, 1]], [[FVal.fin 1, FVal.fin 1]], none⟩ =
      (⟨1000, false, 0, 0, false, 0, 10, id, [.normal 1]⟩ : Config).seed +
        (2 * (0 : ℕ) + 1)) := by
  decide

/-- C3 (amended): the thread-local generator is reseeded once per
retained input frame, with `global_seed + 2·frame_no`, before the
unflipped variant's noise ops; the mirrored variant's ops receive the
engine state the unflipped variant's ops leave behind, with no reseed —
that state is still a function of the seed, the frame number and the
frame content alone, independent of thread scheduling and prior engine
state. -/
theorem reseed_amended (S : Sampler) (cfg : Config) (f g : Frame)
    (hl : f.labels = g.labels) (hd : f.depth = g.depth)
    (hn : f.frameNo = g.frameNo) :
    rngBeforeUnflippedNoise cfg f = cfg.seed + 2 * f.frameNo ∧
    rngBeforeFlippedNoise S cfg f =
      (frame_add_noise S cfg (cfg.seed + 2 * f.frameNo) f.labels f.depth
        (2 * f.frameNo)).2.2 ∧
    rngBeforeFlippedNoise S cfg f = rngBeforeFlippedNoise S cfg g := by
  refine ⟨rfl, rfl, ?_⟩
  unfold rngBeforeFlippedNoise unflippedNoisy rngBeforeUnflippedNoise
  rw [hl, hd, hn]

/-- C3 witness: two frames sharing content and frame number but
differing in path get the same engine states for both variants. -/
theorem reseed_amended_witness :
    rngBeforeUnflippedNoise ⟨1000, false, 0, 0, false, 7, 10, id, []⟩
        ⟨3, 0, [[1]], [[FVal.fin 1]], none⟩ =
      (7 : ℤ) + 2 * (3 : ℕ) ∧
    rngBeforeFlippedNoise ⟨fun s => (0, s), fun _ s => (0, s + 1),
        fun _ _ _ _ _ => 0⟩ ⟨1000, false, 0, 0, false, 7, 10, id, []⟩
        ⟨3, 0, [[1]], [[FVal.fin 1]], none⟩ =
      rngBeforeFlippedNoise ⟨fun s => (0, s), fun _ s => (0, s + 1),
        fun _ _ _ _ _ => 0⟩ ⟨1000, false, 0, 0, false, 7, 10, id, []⟩
        ⟨3, 1, [[1]], [[FVal.fin 1]], some []⟩ :=
  ⟨(reseed_amended ⟨fun s => (0, s), fun _ s => (0, s + 1),
      fun _ _ _ _ _ => 0⟩ ⟨1000, false, 0, 0, false, 7, 10, id, []⟩
      ⟨3, 0, [[1]], [[FVal.fin 1]], none⟩
      ⟨3, 1, [[1]], [[FVal.fin 1]], some []⟩ rfl rfl rfl).1,
   (reseed_amended ⟨fun s => (0, s), fun _ s => (0, s + 1),
      fun _ _ _ _ _ => 0⟩ ⟨1000, false, 0, 0, false, 7, 10, id, []⟩
      ⟨3, 0, [[1]], [[FVal.fin 1]], none⟩
      ⟨3, 1, [[1]], [[FVal.fin 1]], some []⟩ rfl rfl rfl).2.2⟩

/-- C6: when mirroring is enabled and both variants pass the guard, the
retained frame's writes are exactly: the unflipped noisy label and
clamped depth images under the frame's name, then the flipped variant —
built by running the same noise/clamp path on the pre-noise buffers
flipped (labels through the left/right swap table, depth with no
remap) with `output_frame_no = 2·frame_no + 1` (the unflipped variant
used `2·frame_no`) — under the `-flipped` name, then the JSON sidecar
copies. -/
theorem mirror_path_spec (S : Sampler) (cfg : Config) (dir : ℕ)
    (f : Frame) (hnf : cfg.noFlip = false)
    (h1 : sanity_check_frame cfg (unflippedNoisy S cfg f).1
      (clamp_depth cfg (unflippedNoisy S cfg f).1
        (unflippedNoisy S cfg f).2.1) = true)
    (h2 : sanity_check_frame cfg (flippedNoisy S cfg f).1
      (clamp_depth cfg (flippedNoisy S cfg f).1
        (flippedNoisy S cfg f).2.1) = true) :
    processRetained S cfg dir f =
      ([⟨⟨dir, f.path, false, .labelsK⟩, .lab (unflippedNoisy S cfg f).1,
          false⟩,
        ⟨⟨dir, f.path, false, .depthK⟩,
          .dep (clamp_depth cfg (unflippedNoisy S cfg f).1
            (unflippedNoisy S cfg f).2.1), false⟩] ++
       [⟨⟨dir, f.path, true, .labelsK⟩,
          .lab (frame_add_noise S cfg (rngBeforeFlippedNoise S cfg f)
            (flip_frame_labels cfg.swap f.labels)
            (flip_frame_depth f.depth) (2 * f.frameNo + 1)).1, false⟩,
        ⟨⟨dir, f.path, true, .depthK⟩,
          .dep (clamp_depth cfg
            (frame_add_noise S cfg (rngBeforeFlippedNoise S cfg f)
              (flip_frame_labels cfg.swap f.labels)
              (flip_frame_depth f.depth) (2 * f.frameNo + 1)).1
            (frame_add_noise S cfg (rngBeforeFlippedNoise S cfg f)
              (flip_frame_labels cfg.swap f.labels)
              (flip_frame_depth f.depth) (2 * f.frameNo + 1)).2.1),
          false⟩] ++
       jsonWrites cfg dir f, false) := by
  unfold processRetained
  rw [if_pos h1, hnf]
  simp only [Bool.false_eq_true, if_false]
  rw [if_pos h2]
  rfl

/-- C6 witness: the mirrored-path characterisation at a concrete frame
with an empty noise-op list. -/
theorem mirror_path_spec_witness :
    processRetained ⟨fun s => (0, s), fun _ s => (0, s), fun _ _ _ _ _ => 0⟩
      ⟨2, false, 0, 0, false, 0, 10, id, []⟩ 4
      ⟨0, 9, [[1]], [[FVal.fin 1]], none⟩ =
      ([⟨⟨4, 9, false, .labelsK⟩,
          .lab (unflippedNoisy
            ⟨fun s => (0, s), fun _ s => (0, s), fun _ _ _ _ _ => 0⟩
            ⟨2, false, 0, 0, false, 0, 10, id, []⟩
            ⟨0, 9, [[1]], [[FVal.fin 1]], none⟩).1, false⟩,
        ⟨⟨4, 9, false, .depthK⟩,
          .dep (clamp_depth ⟨2, false, 0, 0, false, 0, 10, id, []⟩
            (unflippedNoisy
              ⟨fun s => (0, s), fun _ s => (0, s), fun _ _ _ _ _ => 0⟩
              ⟨2, false, 0, 0, false, 0, 10, id, []⟩
              ⟨0, 9, [[1]], [[FVal.fin 1]], none⟩).1
            (unflippedNoisy
              ⟨fun s => (0, s), fun _ s => (0, s), fun _ _ _ _ _ => 0⟩
              ⟨2, false, 0, 0, false, 0, 10, id, []⟩
              ⟨0, 9, [[1]], [[FVal.fin 1]], none⟩).2.1), false⟩] ++
       [⟨⟨4, 9, true, .labelsK⟩,
          .lab (frame_add_noise
            ⟨fun s => (0, s), fun _ s => (0, s), fun _ _ _ _ _ => 0⟩
            ⟨2, false, 0, 0, false, 0, 10, id, []⟩
            (rngBeforeFlippedNoise
              ⟨fun s => (0, s), fun _ s => (0, s), fun _ _ _ _ _ => 0⟩
              ⟨2, false, 0, 0, false, 0, 10, id, []⟩
              ⟨0, 9, [[1]], [[FVal.fin 1]], none⟩)
            (flip_frame_labels id [[1]]) (flip_frame_depth [[FVal.fin 1]])
            (2 * 0 + 1)).1, false⟩,
        ⟨⟨4, 9, true, .depthK⟩,
          .dep (clamp_depth ⟨2, false, 0, 0, false, 0, 10, id, []⟩
            (frame_add_noise
              ⟨fun s => (0, s), fun _ s => (0, s), fun _ _ _ _ _ => 0⟩
              ⟨2, false, 0, 0, false, 0, 10, id, []⟩
              (rngBeforeFlippedNoise
                ⟨fun s => (0, s), fun _ s => (0, s), fun _ _ _ _ _ => 0⟩
                ⟨2, false, 0, 0, false, 0, 10, id, []⟩
                ⟨0, 9, [[1]], [[FVal.fin 1]], none⟩)
              (flip_frame_labels id [[1]]) (flip_frame_depth [[FVal.fin 1]])
              (2 * 0 + 1)).1
            (frame_add_noise
              ⟨fun s => (0, s), fun _ s => (0, s), fun _ _ _ _ _ => 0⟩
              ⟨2, false, 0, 0, false, 0, 10, id, []⟩
              (rngBeforeFlippedNoise
                ⟨fun s => (0, s), fun _ s => (0, s), fun _ _ _ _ _ => 0⟩
                ⟨2, false, 0, 0, false, 0, 10, id, []⟩
                ⟨0, 9, [[1]], [[FVal.fin 1]], none⟩)
              (flip_frame_labels id [[1]]) (flip_frame_depth [[FVal.fin 1]])
              (2 * 0 + 1)).2.1), false⟩] ++
       jsonWrites ⟨2, false, 0, 0, false, 0, 10, id, []⟩ 4
         ⟨0, 9, [[1]], [[FVal.fin 1]], none⟩, false) :=
  mirror_path_spec ⟨fun s => (0, s), fun _ s => (0, s), fun _ _ _ _ _ => 0⟩
    ⟨2, false, 0, 0, false, 0, 10, id, []⟩ 4
    ⟨0, 9, [[1]], [[FVal.fin 1]], none⟩ rfl (by decide) (by decide)

/-- C8: the shared frame counter is incremented by 2 for each retained
frame, after that frame's budget check; a retained frame whose check
observes the exhausted budget sets the shared `finished` flag, writes
nothing, and stops its unit (a stopped unit performs no further steps,
and the flag, once set, stays set); once the counter has reached
`max_frame_count`, no step writes any file; and a frame whose check
passed completes all its writes within its own (atomic) step. -/
theorem budget_tracker_spec (S : Sampler) (cfg : Config) (s : RunState)
    (i : ℕ) :
    (cfg.maxFrameCount ≤ s.counter → (step S cfg s i).fs = s.fs) ∧
    (s.finished = true → (step S cfg s i).finished = true) ∧
    ((s.units.getD i dummyUnit).stopped = true → step S cfg s i = s) ∧
    (∀ f rest, s.dead = false →
      (s.units.getD i dummyUnit).stopped = false →
      (s.units.getD i dummyUnit).pending = f :: rest →
      filterDecision cfg (s.units.getD i dummyUnit).prev f.labels =
        .retain →
      ((s.counter < cfg.maxFrameCount →
        (step S cfg s i).counter = s.counter + 2 ∧
        (step S cfg s i).fs =
          (processRetained S cfg (s.units.getD i dummyUnit).dir f).1.foldl
            applyWrite s.fs) ∧
       (cfg.maxFrameCount ≤ s.counter →
        (step S cfg s i).finished = true ∧
        (step S cfg s i).fs = s.fs ∧
        (step S cfg s i).counter = s.counter ∧
        ((step S cfg s i).units.getD i dummyUnit).stopped = true))) := by
  refine ⟨?_, ?_, ?_, ?_⟩
  · intro hcnt
    by_cases hd : s.dead = true
    · rw [step_dead S cfg s i hd]
    · have hd' : s.dead = false := eq_false_of_ne_true hd
      by_cases hstop : (s.units.getD i dummyUnit).stopped = true
      · rw [step_stopped S cfg s i hstop]
      · have hstop' := eq_false_of_ne_true hstop
        cases hpend : (s.units.getD i dummyUnit).pending with
        | nil => rw [step_nil S cfg s i hstop' hpend]
        | cons f rest =>
          cases hfd : filterDecision cfg (s.units.getD i dummyUnit).prev
              f.labels with
          | retain =>
            rw [step_retain_fail S cfg s i f rest hd' hstop' hpend hfd hcnt]
          | dropEmpty =>
            rw [step_drop S cfg s i f rest hd' hstop' hpend (by rw [hfd]; simp)]
          | dropTooSmall =>
            rw [step_drop S cfg s i f rest hd' hstop' hpend (by rw [hfd]; simp)]
          | dropTooSimilar =>
            rw [step_drop S cfg s i f rest hd' hstop' hpend (by rw [hfd]; simp)]
  · intro hfin
    by_cases hd : s.dead = true
    · rw [step_dead S cfg s i hd]; exact hfin
    · have hd' : s.dead = false := eq_false_of_ne_true hd
      by_cases hstop : (s.units.getD i dummyUnit).stopped = true
      · rw [step_stopped S cfg s i hstop]; exact hfin
      · have hstop' := eq_false_of_ne_true hstop
        cases hpend : (s.units.getD i dummyUnit).pending with
        | nil => rw [step_nil S cfg s i hstop' hpend]; exact hfin
        | cons f rest =>
          cases hfd : filterDecision cfg (s.units.getD i dummyUnit).prev
              f.labels with
          | retain =>
            by_cases hcnt : cfg.maxFrameCount ≤ s.counter
            · rw [step_retain_fail S cfg s i f rest hd' hstop' hpend hfd hcnt]
            · rw [step_retain_pass S cfg s i f rest hd' hstop' hpend hfd
                (not_le.mp hcnt)]
              exact hfin
          | dropEmpty =>
            rw [step_drop S cfg s i f rest hd' hstop' hpend (by rw [hfd]; simp)]
            exact hfin
          | dropTooSmall =>
            rw [step_drop S cfg s i f rest hd' hstop' hpend (by rw [hfd]; simp)]
            exact hfin
          | dropTooSimilar =>
            rw [step_drop S cfg s i f rest hd' hstop' hpend (by rw [hfd]; simp)]
            exact hfin
  · exact step_stopped S cfg s i
  · intro f rest hd' hstop' hpend hfd
    constructor
    · intro hcnt
      rw [step_retain_pass S cfg s i f rest hd' hstop' hpend hfd hcnt]
      exact ⟨rfl, rfl⟩
    · intro hcnt
      have hi : i < s.units.length := getD_stopped_lt s i hstop'
      rw [step_retain_fail S cfg s i f rest hd' hstop' hpend hfd hcnt]
      refine ⟨rfl, rfl, rfl, ?_⟩
      show ((s.units.set i _).getD i dummyUnit).stopped = true
      rw [getD_set_self _ _ hi]

/-- C8 witness: at a concrete state whose counter has reached the
budget, the retained frame's step sets `finished`, leaves the file
system and counter unchanged and stops the unit; and a stopped unit's
step is a no-op. -/
theorem budget_tracker_spec_witness :
    ((step ⟨fun s => (0, s), fun _ s => (0, s), fun _ _ _ _ _ => 0⟩
        ⟨2, false, 0, 0, true, 0, 0, id, []⟩
        ⟨0, false, false, 0, fun _ => none,
          [⟨5, [⟨0, 0, [[1]], [[FVal.fin 1]], none⟩], none, false⟩]⟩
        0).finished = true ∧
     (step ⟨fun s => (0, s), fun _ s => (0, s), fun _ _ _ _ _ => 0⟩
        ⟨2, false, 0, 0, true, 0, 0, id, []⟩
        ⟨0, false, false, 0, fun _ => none,
          [⟨5, [⟨0, 0, [[1]], [[FVal.fin 1]], none⟩], none, false⟩]⟩
        0).fs =
       (⟨0, false, false, 0, fun _ => none,
          [⟨5, [⟨0, 0, [[1]], [[FVal.fin 1]], none⟩], none, false⟩]⟩ :
         RunState).fs ∧
     (step ⟨fun s => (0, s), fun _ s => (0, s), fun _ _ _ _ _ => 0⟩
        ⟨2, false, 0, 0, true, 0, 0, id, []⟩
        ⟨0, false, false, 0, fun _ => none,
          [⟨5, [⟨0, 0, [[1]], [[FVal.fin 1]], none⟩], none, false⟩]⟩
        0).counter = 0 ∧
     ((step ⟨fun s => (0, s), fun _ s => (0, s), fun _ _ _ _ _ => 0⟩
        ⟨2, false, 0, 0, true, 0, 0, id, []⟩
        ⟨0, false, false, 0, fun _ => none,
          [⟨5, [⟨0, 0, [[1]], [[FVal.fin 1]], none⟩], none, false⟩]⟩
        0).units.getD 0 dummyUnit).stopped = true) :=
  ((budget_tracker_spec ⟨fun s => (0, s), fun _ s => (0, s),
      fun _ _ _ _ _ => 0⟩ ⟨2, false, 0, 0, true, 0, 0, id, []⟩
      ⟨0, false, false, 0, fun _ => none,
        [⟨5, [⟨0, 0, [[1]], [[FVal.fin 1]], none⟩], none, false⟩]⟩
      0).2.2.2 ⟨0, 0, [[1]], [[FVal.fin 1]], none⟩ [] rfl rfl rfl
      rfl).2 (by decide)

/-- C9: applying the label flip (column reflection composed with the
left/right id swap) twice to any label buffer returns the original
label buffer, and applying the depth column reflection twice to any
depth buffer returns the original depth buffer.  (The swap table is an
involution: it exchanges each left label id with its right
counterpart.) -/
theorem flip_involution (swap : ℕ → ℕ) (hsw : ∀ l, swap (swap l) = l)
    (labels : Grid ℕ) (depth : Grid FVal) :
    flip_frame_labels swap (flip_frame_labels swap labels) = labels ∧
    flip_frame_depth (flip_frame_depth depth) = depth := by
  constructor
  · unfold flip_frame_labels
    rw [List.map_map]
    have : ∀ row : List ℕ,
        ((row.reverse.map swap).reverse.map swap) = row := fun row =>
      reverse_map_invol row swap hsw
    calc labels.map _ = labels.map id := List.map_congr_left fun row _ => this row
      _ = labels := List.map_id labels
  · unfold flip_frame_depth
    rw [List.map_map]
    have : ∀ row : List FVal, (row.reverse.reverse = row) :=
      List.reverse_reverse
    calc depth.map _ = depth.map id := List.map_congr_left fun row _ => this row
      _ = depth := List.map_id depth

/-- C9 witness: the involution at a concrete swap table and concrete
buffers. -/
theorem flip_involution_witness :
    (∀ l : ℕ, id (id l) = l) ∧
    flip_frame_labels id (flip_frame_labels id [[1, 2], [3, 0]]) =
      [[1, 2], [3, 0]] ∧
    flip_frame_depth (flip_frame_depth [[FVal.fin 1, FVal.nan]]) =
      [[FVal.fin 1, FVal.nan]] :=
  ⟨fun _ => rfl,
   (flip_involution id (fun _ => rfl) [[1, 2], [3, 0]]
      [[FVal.fin 1, FVal.nan]]).1,
   (flip_involution id (fun _ => rfl) [[1, 2], [3, 0]]
      [[FVal.fin 1, FVal.nan]]).2⟩

end Glimpse
